import Mathlib

/-!
# Redirections of minishell (`src/redirect.c`)

A shallow embedding of `stash_fd`, `read_heredoc`, `open_redir_file`,
`is_redirect`, `do_redirect` and `reset_redirect` over an explicit file
descriptor table, followed by the properties of the redirection subsystem.

Conventions of the embedding.

* Descriptors are C `int`s, so they are `Int` here; a negative number never
  names an open slot.
* The descriptor table maps a slot number to an optional open file.  Only
  finitely many slots are open and the slot space is unbounded: the per-process
  limit on descriptors is not part of the model, so a free slot always exists.
* A pipe holds a bounded number of bytes.  Nobody reads the pipe of a heredoc
  before `read_heredoc` returns, so a `dprintf` that does not fit in what is
  left of the capacity blocks for ever.
* `fatal_error` and `assert_error` do not return, and a blocked call does not
  return either: the run ends in `Except.error`.
* The system calls return `-1` on failure exactly as the C library does, and
  the embedded functions test or ignore that value where the source does.
-/

namespace Minishell

/-! ## Open files and the descriptor table -/

/-- An open file (an open file description of the kernel): something the
process had before the redirection code ran, the result of the `serial`-th
call of `open`, or one end of the `p`-th pipe. -/
inductive File
  | inherited (id : Nat)
  | opened (serial : Nat)
  | pipe_read (p : Nat)
  | pipe_write (p : Nat)
  deriving DecidableEq, Repr

/-- Descriptor table: `slot n` is what slot `n` refers to, for `n < hi`;
every slot at or above `hi` is free. -/
structure FdTable where
  slot : Nat → Option File
  hi : Nat

namespace FdTable

/-- Occupant of the slot with a natural number. -/
def get (t : FdTable) (n : Nat) : Option File :=
  if n < t.hi then t.slot n else none

/-- Overwrite one slot. -/
def put (t : FdTable) (n : Nat) (v : Option File) : FdTable :=
  ⟨fun j => if j = n then v else t.get j, max t.hi (n + 1)⟩

/-- Occupant of descriptor `fd`; `none` when `fd` is negative or free. -/
def lookup (t : FdTable) (fd : Int) : Option File :=
  if fd < 0 then none else t.get fd.toNat

/-- Linear search for a free slot, upwards from `j`, at most `fuel` steps. -/
def scan (t : FdTable) : Nat → Nat → Nat
  | 0, j => j
  | fuel + 1, j => if (t.get j).isNone then j else scan t fuel (j + 1)

/-- The lowest free slot at or above `lo`. -/
def lowest_free (t : FdTable) (lo : Nat) : Nat :=
  t.scan (t.hi - lo) lo

/-- The table with the listed slots open, everything else free. -/
def ofList (l : List (Nat × File)) : FdTable :=
  l.foldl (fun t p => t.put p.1 (some p.2)) ⟨fun _ => none, 0⟩

end FdTable

/-! ## System calls on the table -/

/-- The call `close(fd)`: fails with `-1` on a descriptor that is not open. -/
def sys_close (t : FdTable) (fd : Int) : Int × FdTable :=
  match t.lookup fd with
  | none => (-1, t)
  | some _ => (0, t.put fd.toNat none)

/-- The call `fcntl(fd, F_DUPFD, lo)`: duplicates `fd` onto the lowest free
slot at or above `lo`; fails with `-1` when `fd` is not open. -/
def sys_fcntl_dupfd (t : FdTable) (fd : Int) (lo : Nat) : Int × FdTable :=
  match t.lookup fd with
  | none => (-1, t)
  | some f => ((t.lowest_free lo : Nat), t.put (t.lowest_free lo) (some f))

/-- The call `dup2(oldfd, newfd)`: fails with `-1` when `oldfd` is not open or
`newfd` is negative, does nothing when both are equal, and otherwise makes
`newfd` refer to the file of `oldfd` (silently closing what was there). -/
def sys_dup2 (t : FdTable) (oldfd newfd : Int) : Int × FdTable :=
  match t.lookup oldfd with
  | none => (-1, t)
  | some f =>
    if newfd < 0 then (-1, t)
    else if oldfd = newfd then (newfd, t)
    else (newfd, t.put newfd.toNat (some f))

/-! ## Process termination -/

/-- How a run ends when it does not return: the process is terminated by
`fatal_error` or by `assert_error`, or the named call blocks for ever. -/
inductive Abort
  | fatal (msg : String)
  | assertion (msg : String)
  | blocked (call : String)
  deriving DecidableEq, Repr

/-- Modelled from the spec: fatal_error is declared in `include/minishell.h`
and defined outside `redirect.c`; the fatal-error collaborator "emits a
diagnostic naming the failed operation and terminates the process
immediately". -/
def fatal_error {α : Type} (msg : String) : Except Abort α :=
  .error (.fatal msg)

/-- Modelled from the spec: assert_error is declared in `include/minishell.h`
and defined outside `redirect.c`; an unexpected node kind is a "fatal
assertion". -/
def assert_error {α : Type} (msg : String) : Except Abort α :=
  .error (.assertion msg)

/-! ## `stash_fd` -/

/-- The function `stash_fd` (redirect.c:17-27). -/
def stash_fd (t : FdTable) (fd : Int) : Except Abort (Int × FdTable) :=
  let (stash, t1) := sys_fcntl_dupfd t fd 10
  if stash < 0 then fatal_error "fcntl"
  else
    let (rc, t2) := sys_close t1 fd
    if rc < 0 then fatal_error "close"
    else .ok (stash, t2)

/-! ## Nodes -/

/-- Modelled from the spec: t_node_kind is declared in `include/minishell.h`,
which is not among the sources.  The enumerators are the six that `redirect.c`
names: the two command nodes of the spec (pipeline, simple command) and its
four redirection kinds (output, input, append, heredoc). -/
inductive t_node_kind
  | ND_PIPELINE
  | ND_SIMPLE_CMD
  | ND_REDIR_OUT
  | ND_REDIR_IN
  | ND_REDIR_APPEND
  | ND_REDIR_HEREDOC
  deriving DecidableEq, Repr

/-- Modelled from the spec: the scalar members of `t_node` (declared in
`include/minishell.h`) that `redirect.c` reads or writes: the kind, the source
text (`filename` and `delimiter` stand for `filename->word` and
`delimiter->word`), the unquoted flag, the target slot, the resolved
descriptor and the saved occupant. -/
structure t_node_data where
  kind : t_node_kind
  filename : String
  delimiter : String
  is_delim_unquoted : Bool
  target_fd : Int
  file_fd : Int
  stashed_target_fd : Int
  deriving DecidableEq, Repr

/-- Modelled from the spec: t_node is declared in `include/minishell.h`, which
is not among the sources.  One node type serves pipelines, simple commands and
redirections; `NULL` is the null pointer, and `next`, `command`, `redirects`
are the three links `redirect.c` follows: a pipeline owns `command` and the
continuation `next`, a simple command owns the list `redirects`, a redirection
has the `next` node of the same command. -/
inductive t_node
  | NULL
  | node (d : t_node_data) (next command redirects : t_node)
  deriving DecidableEq, Repr

open t_node_kind

/-- The function `is_redirect` (redirect.c:142-153). -/
def is_redirect (d : t_node_data) : Bool :=
  if d.kind = ND_REDIR_OUT then true
  else if d.kind = ND_REDIR_IN then true
  else if d.kind = ND_REDIR_APPEND then true
  else if d.kind = ND_REDIR_HEREDOC then true
  else false

/-- The function `do_redirect` (redirect.c:155-169); the result of `dup2` is
ignored, as in the source.  Returns the list with the saved occupants
recorded, and the new table. -/
def do_redirect : t_node → FdTable → Except Abort (t_node × FdTable)
  | .NULL, t => .ok (.NULL, t)
  | .node d next command redirects, t =>
    if is_redirect d = true then
      match stash_fd t d.target_fd with
      | .error e => .error e
      | .ok (stashed, t1) =>
        let t2 := (sys_dup2 t1 d.file_fd d.target_fd).2
        match do_redirect next t2 with
        | .error e => .error e
        | .ok (next', t3) =>
          .ok (.node { d with stashed_target_fd := stashed } next' command redirects, t3)
    else assert_error "do_redirect"

/-- The function `reset_redirect` (redirect.c:171-187): the tail is reset
first; the results of `close` and `dup2` are ignored, as in the source. -/
def reset_redirect : t_node → FdTable → Except Abort FdTable
  | .NULL, t => .ok t
  | .node d next _ _, t =>
    match reset_redirect next t with
    | .error e => .error e
    | .ok t1 =>
      if is_redirect d = true then
        let t2 := (sys_close t1 d.file_fd).2
        let t3 := (sys_close t2 d.target_fd).2
        .ok (sys_dup2 t3 d.stashed_target_fd d.target_fd).2
      else assert_error "reset_redirect"

/-! ## Redirection lists -/

/-- The nodes of a list, head to tail, following `next`. -/
def chain : t_node → List t_node_data
  | .NULL => []
  | .node d next _ _ => d :: chain next

/-- Target slots named in a list. -/
def targets (l : t_node) : List Int := (chain l).map (fun d => d.target_fd)

/-- Resolved descriptors of a list. -/
def file_fds (l : t_node) : List Int := (chain l).map (fun d => d.file_fd)

/-- Saved occupants recorded in a list. -/
def stashes (l : t_node) : List Int := (chain l).map (fun d => d.stashed_target_fd)

/-- First node of the list that names slot `s`. -/
def first_for (s : Int) (l : t_node) : Option t_node_data :=
  (chain l).find? (fun d => decide (d.target_fd = s))

/-- Last node of the list that names slot `s`. -/
def last_for (s : Int) (l : t_node) : Option t_node_data :=
  ((chain l).filter (fun d => decide (d.target_fd = s))).getLast?

/-- Preconditions of applying a list on table `t`: every node is a
redirection; every target slot is open and below 10; every resolved
descriptor is open and at or above 10; the resolved descriptors are pairwise
distinct. -/
def ApplyPre (t : FdTable) (l : t_node) : Prop :=
  (∀ d ∈ chain l, is_redirect d = true) ∧
  (∀ d ∈ chain l, d.target_fd < 10 ∧ (t.lookup d.target_fd).isSome = true) ∧
  (∀ d ∈ chain l, 10 ≤ d.file_fd ∧ (t.lookup d.file_fd).isSome = true) ∧
  (file_fds l).Nodup

instance (t : FdTable) (l : t_node) : Decidable (ApplyPre t l) := by
  unfold ApplyPre
  infer_instance

/-! ## The process state beyond the table -/

/-- One call of `readline`: the line it returns (`none` for `NULL`, the end of
input) and whether the signal handler set `readline_interrupted` while the
call was in progress. -/
structure ReadEvent where
  line : Option String
  interrupt : Bool
  deriving DecidableEq, Repr

/-- The three ways `open_redir_file` calls `open`. -/
inductive OpenHow
  | creat_wronly_trunc_0644
  | rdonly
  | creat_wronly_append_0644
  deriving DecidableEq, Repr

/-- State of the process: the descriptor table, the global
`readline_interrupted`, what `readline` will deliver (after the last event it
returns `NULL`), the bytes written to every pipe and not read yet, the
capacity of a pipe in bytes (a constant of the kernel, 65536 on Linux),
counters that name new pipes and new open files, and the diagnostics emitted
by `xperror`. -/
structure World where
  fds : FdTable
  readline_interrupted : Bool
  input : List ReadEvent
  pipes : Nat → String
  pipe_capacity : Nat
  npipes : Nat
  nopens : Nat
  diag : List String

/-- The collaborators outside `redirect.c`: whether the file system grants
the `n`-th call of `open`, and the heredoc line expansion. -/
structure Env where
  can_open : Nat → String → OpenHow → Bool
  expand_heredoc_line : String → String

/-- The call `open(path, flags, mode)`: on success the lowest free slot refers
to a new open file. -/
def sys_open (E : Env) (w : World) (path : String) (how : OpenHow) : Int × World :=
  if E.can_open w.nopens path how = true then
    ((w.fds.lowest_free 0 : Nat),
      { w with fds := w.fds.put (w.fds.lowest_free 0) (some (.opened w.nopens)),
               nopens := w.nopens + 1 })
  else (-1, { w with nopens := w.nopens + 1 })

/-- The call `pipe(pfd)`: a new empty pipe; its read end takes the lowest free
slot and its write end the next lowest.  Returns the status and `pfd[0]`,
`pfd[1]`. -/
def sys_pipe (w : World) : Int × Int × Int × World :=
  let r := w.fds.lowest_free 0
  let t1 := w.fds.put r (some (.pipe_read w.npipes))
  let s := t1.lowest_free 0
  let t2 := t1.put s (some (.pipe_write w.npipes))
  (0, (r : Nat), (s : Nat),
    { w with fds := t2,
             pipes := fun q => if q = w.npipes then "" else w.pipes q,
             npipes := w.npipes + 1 })

/-- Number of bytes of a text. -/
def byte_count (text : String) : Nat := text.utf8ByteSize

/-- The call `dprintf(fd, "%s", text)` on the write end of a pipe that nobody
reads (the only read end is held by the caller, which does not read): the
bytes are appended when they fit in what is left of the capacity, otherwise
the call blocks for ever.  Writes elsewhere leave no trace in this state. -/
def sys_write (w : World) (fd : Int) (text : String) : Except Abort World :=
  match w.fds.lookup fd with
  | some (.pipe_write p) =>
    if byte_count (w.pipes p) + byte_count text ≤ w.pipe_capacity then
      .ok { w with pipes := fun q => if q = p then w.pipes p ++ text else w.pipes q }
    else .error (.blocked "dprintf")
  | _ => .ok w

/-- Modelled from the spec: xperror is defined outside `redirect.c`; the
error-reporting collaborator emits a diagnostic for the given path. -/
def xperror (w : World) (path : String) : World :=
  { w with diag := w.diag ++ [path] }

/-! ## `read_heredoc` -/

/-- The loop of `read_heredoc` (redirect.c:63-84); `wfd` is `pfd[1]`.  The
first argument is the input still to be delivered, one event per call of
`readline`.  The loop ends in the state at the `break`, or does not end when
`dprintf` blocks. -/
def heredoc_loop (E : Env) (delimiter : String) (is_delim_unquoted : Bool) (wfd : Int) :
    List ReadEvent → World → Except Abort World
  | [], w => .ok { w with input := [] }
  | ev :: rest, w =>
    let w1 := { w with input := rest,
                       readline_interrupted := w.readline_interrupted || ev.interrupt }
    match ev.line with
    | none => .ok w1
    | some line =>
      if w1.readline_interrupted = true then .ok w1
      else if line = delimiter then .ok w1
      else
        let line' := if is_delim_unquoted = true then E.expand_heredoc_line line else line
        match sys_write w1 wfd (line' ++ "\n") with
        | .error e => .error e
        | .ok w2 => heredoc_loop E delimiter is_delim_unquoted wfd rest w2

/-- The function `read_heredoc` (redirect.c:53-92). -/
def read_heredoc (E : Env) (w : World) (delimiter : String) (is_delim_unquoted : Bool) :
    Except Abort (Int × World) :=
  let (rc, pfd0, pfd1, w1) := sys_pipe w
  if rc < 0 then fatal_error "pipe"
  else
    let w2 := { w1 with readline_interrupted := false }
    match heredoc_loop E delimiter is_delim_unquoted pfd1 w2.input w2 with
    | .error e => .error e
    | .ok w3 =>
      let w4 := { w3 with fds := (sys_close w3.fds pfd1).2 }
      if w4.readline_interrupted = true then
        .ok (-1, { w4 with fds := (sys_close w4.fds pfd0).2 })
      else .ok (pfd0, w4)

/-! ## `open_redir_file` -/

/-- The part of `open_redir_file` that opens the target of one redirection
node (redirect.c:110-129) and yields the value stored in `file_fd`. -/
def open_target (E : Env) (d : t_node_data) (w : World) : Except Abort (Int × World) :=
  if d.kind = ND_REDIR_OUT then
    .ok (sys_open E w d.filename .creat_wronly_trunc_0644)
  else if d.kind = ND_REDIR_IN then
    .ok (sys_open E w d.filename .rdonly)
  else if d.kind = ND_REDIR_APPEND then
    .ok (sys_open E w d.filename .creat_wronly_append_0644)
  else if d.kind = ND_REDIR_HEREDOC then
    read_heredoc E w d.delimiter d.is_delim_unquoted
  else assert_error "open_redir_file"

/-- The failure branch of a redirection node (redirect.c:130-137): the path is
reported for the three file kinds. -/
def report_failure (d : t_node_data) (w : World) : World :=
  if d.kind = ND_REDIR_OUT ∨ d.kind = ND_REDIR_APPEND ∨ d.kind = ND_REDIR_IN then
    xperror w d.filename
  else w

/-- The function `open_redir_file` (redirect.c:94-140).  Returns the status,
the tree with the `file_fd` members it has written, and the new state. -/
def open_redir_file (E : Env) : t_node → World → Except Abort (Int × t_node × World)
  | .NULL, w => .ok (0, .NULL, w)
  | .node d next command redirects, w =>
    if d.kind = ND_PIPELINE then
      match open_redir_file E command w with
      | .error e => .error e
      | .ok (r1, command', w1) =>
        if r1 < 0 then .ok (-1, .node d next command' redirects, w1)
        else
          match open_redir_file E next w1 with
          | .error e => .error e
          | .ok (r2, next', w2) =>
            if r2 < 0 then .ok (-1, .node d next' command' redirects, w2)
            else .ok (0, .node d next' command' redirects, w2)
    else if d.kind = ND_SIMPLE_CMD then
      match open_redir_file E redirects w with
      | .error e => .error e
      | .ok (r, redirects', w1) => .ok (r, .node d next command redirects', w1)
    else
      match open_target E d w with
      | .error e => .error e
      | .ok (fd, w1) =>
        if fd < 0 then
          .ok (-1, .node { d with file_fd := fd } next command redirects,
            report_failure d w1)
        else
          match stash_fd w1.fds fd with
          | .error e => .error e
          | .ok (fd', t') =>
            match open_redir_file E next { w1 with fds := t' } with
            | .error e => .error e
            | .ok (r, next', w2) =>
              .ok (r, .node { d with file_fd := fd' } next' command redirects, w2)

/-! ## Vocabulary of the heredoc properties -/

/-- The event `readline` returns `line`, no interruption. -/
def accepted (line : String) : ReadEvent := ⟨some line, false⟩

/-- What a capture is expected to write for the given accepted lines: every
line, expanded when the flag is set, followed by one newline. -/
def heredoc_text (E : Env) (is_delim_unquoted : Bool) : List String → String
  | [] => ""
  | l :: ls =>
    ((if is_delim_unquoted = true then E.expand_heredoc_line l else l) ++ "\n") ++
      heredoc_text E is_delim_unquoted ls

/-- Status returned by a run, when it returns. -/
def status {α : Type} (r : Except Abort (Int × α)) : Option Int :=
  match r with
  | .ok (rc, _) => some rc
  | .error _ => none

/-! ## Vocabulary of the resolver properties -/

/-- The redirection nodes of a command tree in the order depth-first, left to
right (the `command` of a pipeline before its `next`), head to tail. -/
def redir_nodes : t_node → List t_node_data
  | .NULL => []
  | .node d next command redirects =>
    if d.kind = ND_PIPELINE then redir_nodes command ++ redir_nodes next
    else if d.kind = ND_SIMPLE_CMD then redir_nodes redirects
    else d :: redir_nodes next

/-- Resolution as the specification words it, over the sequence of redirection
nodes: open the target of each node in turn; on failure report the path,
leave the rest of the sequence alone and fail; on success pass the descriptor
through `stash_fd` and go on. -/
def resolve_seq (E : Env) :
    List t_node_data → World → Except Abort (Int × List t_node_data × World)
  | [], w => .ok (0, [], w)
  | d :: ds, w =>
    match open_target E d w with
    | .error e => .error e
    | .ok (fd, w1) =>
      if fd < 0 then .ok (-1, { d with file_fd := fd } :: ds, report_failure d w1)
      else
        match stash_fd w1.fds fd with
        | .error e => .error e
        | .ok (fd', t') =>
          match resolve_seq E ds { w1 with fds := t' } with
          | .error e => .error e
          | .ok (r, ds', w2) => .ok (r, { d with file_fd := fd' } :: ds', w2)

/-- The result of `open_redir_file` with the tree read as its sequence of
redirection nodes. -/
def flat (x : Except Abort (Int × t_node × World)) :
    Except Abort (Int × List t_node_data × World) :=
  match x with
  | .error e => .error e
  | .ok (r, tree, w) => .ok (r, redir_nodes tree, w)

/-- What the opening of one target does to the table: on failure nothing, on
success exactly one slot that was free is now open. -/
def OpenEffect (t : FdTable) (fd : Int) (t1 : FdTable) : Prop :=
  (fd < 0 ∧ ∀ k, t1.lookup k = t.lookup k) ∨
  (0 ≤ fd ∧ t.lookup fd = none ∧ (∃ f, t1.lookup fd = some f) ∧
    ∀ k, k ≠ fd → t1.lookup k = t.lookup k)

/-- What `do_redirect` achieves: from table `t` and list `l` to list `l'`
(saved occupants recorded) and table `t'`. -/
structure DoSpec (t : FdTable) (l l' : t_node) (t' : FdTable) : Prop where
  targets_eq : targets l' = targets l
  file_fds_eq : file_fds l' = file_fds l
  kinds : ∀ d ∈ chain l', is_redirect d = true
  keep_high : ∀ fd f, 10 ≤ fd → t.lookup fd = some f → t'.lookup fd = some f
  low : ∀ s, s < 10 → t'.lookup s =
    match last_for s l with
    | some dl => t.lookup dl.file_fd
    | none => t.lookup s
  stash_nodup : (stashes l').Nodup
  stash_fresh : ∀ s ∈ stashes l', 10 ≤ s ∧ t.lookup s = none ∧ (t'.lookup s).isSome = true
  high_frame : ∀ fd, 10 ≤ fd → fd ∉ stashes l' → t'.lookup fd = t.lookup fd
  first_saved : ∀ s d', first_for s l' = some d' →
    t'.lookup d'.stashed_target_fd = t.lookup s

/-- What `reset_redirect` achieves after `do_redirect`: `t` is the table before
the apply, `t'` after the apply, `t''` after the reset. -/
structure ResetSpec (t : FdTable) (l : t_node) (t' t'' : FdTable) : Prop where
  low_restored : ∀ s, s < 10 → t''.lookup s = t.lookup s
  frame : ∀ fd, fd ∉ file_fds l → fd ∉ targets l → t''.lookup fd = t'.lookup fd
  closed : ∀ fd ∈ file_fds l, t''.lookup fd = none

/-- The first failing node: `ds` is `pre`, then `k`, then `post`; from state
`w` the nodes of `pre` resolve one after the other (giving `pre'`), and in the
state reached the open of `k` fails with `fd`, leaving state `wk'`. -/
def FirstFailure (E : Env) (ds : List t_node_data) (w : World)
    (pre : List t_node_data) (k : t_node_data) (post pre' : List t_node_data)
    (fd : Int) (wk' : World) : Prop :=
  ds = pre ++ k :: post ∧
    ∃ wk, resolve_seq E pre w = .ok (0, pre', wk) ∧ open_target E k wk = .ok (fd, wk') ∧ fd < 0

/-! ## Concrete inputs -/

/-- A terminal on slots 0, 1, 2 and two resolved files on slots 10 and 11. -/
def demo_table : FdTable :=
  FdTable.ofList [(0, .inherited 0), (1, .inherited 0), (2, .inherited 0),
    (10, .opened 0), (11, .opened 1)]

/-- A redirection node `target_fd > filename`, resolved to `file_fd`. -/
def redir_out (target_fd file_fd : Int) (filename : String) (next : t_node) : t_node :=
  .node ⟨ND_REDIR_OUT, filename, "", false, target_fd, file_fd, 0⟩ next .NULL .NULL

/-- A heredoc node `target_fd << delimiter`, not yet resolved. -/
def redir_heredoc (target_fd : Int) (delimiter : String) (next : t_node) : t_node :=
  .node ⟨ND_REDIR_HEREDOC, "", delimiter, false, target_fd, 0, 0⟩ next .NULL .NULL

/-- A simple command with the given redirection list. -/
def simple_cmd (redirects : t_node) : t_node :=
  .node ⟨ND_SIMPLE_CMD, "", "", false, 0, 0, 0⟩ .NULL .NULL redirects

/-- A pipeline node. -/
def pipeline (command next : t_node) : t_node :=
  .node ⟨ND_PIPELINE, "", "", false, 0, 0, 0⟩ next command .NULL

/-- The list `> f1 > f2`, both on slot 1, resolved to 10 and 11. -/
def demo_list : t_node := redir_out 1 10 "f1" (redir_out 1 11 "f2" .NULL)

/-- The collaborators: every `open` is granted except the one numbered
`failing`; expansion puts the line in brackets. -/
def demo_env (failing : Nat) : Env :=
  ⟨fun n _ _ => decide (n ≠ failing), fun l => "<" ++ l ++ ">"⟩

/-- A process with a terminal on slots 0, 1, 2, the given input and pipes of
65536 bytes. -/
def demo_world (events : List ReadEvent) : World :=
  ⟨FdTable.ofList [(0, .inherited 0), (1, .inherited 0), (2, .inherited 0)],
    true, events, fun _ => "", 65536, 0, 0, []⟩

/-- The tree with every `file_fd` cleared: what a tree is apart from its
resolved descriptors. -/
def clear_file_fds : t_node → t_node
  | .NULL => .NULL
  | .node d next command redirects =>
    .node { d with file_fd := 0 } (clear_file_fds next) (clear_file_fds command)
      (clear_file_fds redirects)

/-- The tree of `cmd > f1 > f2 | cmd << EOF > f3`. -/
def demo_tree : t_node :=
  pipeline (simple_cmd (redir_out 1 0 "f1" (redir_out 1 0 "f2" .NULL)))
    (pipeline (simple_cmd (redir_heredoc 0 "EOF" (redir_out 1 0 "f3" .NULL))) .NULL)

/-- The demonstration tree after a successful resolution: the four
redirections hold the descriptors 10, 11, 12 and 13. -/
def demo_tree_after : t_node :=
  pipeline (simple_cmd (redir_out 1 10 "f1" (redir_out 1 11 "f2" .NULL)))
    (pipeline (simple_cmd
      (.node ⟨ND_REDIR_HEREDOC, "", "EOF", false, 0, 12, 0⟩
        (redir_out 1 13 "f3" .NULL) .NULL .NULL)) .NULL)

/-- The result of a run, or the given fallback when the run does not return. -/
def result_or {α : Type} (fallback : α) (x : Except Abort α) : α :=
  match x with
  | .ok a => a
  | .error _ => fallback

/-- Input of the demonstration runs: the heredoc body `a`, then `EOF`. -/
def demo_input : List ReadEvent := [accepted "a", accepted "EOF"]

/-- What `open_redir_file` returns on the demonstration tree when every `open`
is granted. -/
def demo_resolved : Int × t_node × World :=
  result_or (0, .NULL, demo_world [])
    (open_redir_file (demo_env 99) demo_tree (demo_world demo_input))

/-- State after the first node of the demonstration tree has been resolved. -/
def demo_after_first : Int × List t_node_data × World :=
  result_or (0, [], demo_world [])
    (resolve_seq (demo_env 1) ((redir_nodes demo_tree).take 1) (demo_world demo_input))

/-- State after the open of the second node has failed. -/
def demo_after_failure : Int × World :=
  result_or (0, demo_world [])
    (open_target (demo_env 1) ⟨ND_REDIR_OUT, "f2", "", false, 1, 0, 0⟩ demo_after_first.2.2)

/-! ## Lemmas on the table -/

namespace FdTable

theorem get_put (t : FdTable) (n : Nat) (v : Option File) (j : Nat) :
    (t.put n v).get j = if j = n then v else t.get j := by
  unfold put get
  by_cases hj : j = n
  · subst hj
    simp
  · simp only [hj, if_false]
    by_cases h1 : j < t.hi
    · have : j < max t.hi (n + 1) := lt_of_lt_of_le h1 (le_max_left _ _)
      simp [this, h1]
    · simp [h1]

theorem lookup_of_neg (t : FdTable) {fd : Int} (h : fd < 0) : t.lookup fd = none := by
  simp [lookup, h]

theorem lookup_natCast (t : FdTable) (n : Nat) : t.lookup (n : Int) = t.get n := by
  simp [lookup]

theorem lookup_nonneg (t : FdTable) {fd : Int} {f : File} (h : t.lookup fd = some f) :
    0 ≤ fd := by
  by_contra hneg
  rw [lookup_of_neg t (not_le.mp hneg)] at h
  cases h

theorem lookup_put (t : FdTable) (n : Nat) (v : Option File) (fd : Int) :
    (t.put n v).lookup fd = if fd = (n : Int) then v else t.lookup fd := by
  unfold lookup
  by_cases hneg : fd < 0
  · have : fd ≠ (n : Int) := by omega
    simp [hneg, this]
  · simp only [hneg, if_false, get_put]
    have : (fd.toNat = n) ↔ (fd = (n : Int)) := by omega
    simp [this]

theorem scan_spec (t : FdTable) : ∀ (fuel j : Nat), t.hi ≤ j + fuel →
    j ≤ t.scan fuel j ∧ t.get (t.scan fuel j) = none ∧
      ∀ k, j ≤ k → k < t.scan fuel j → t.get k ≠ none
  | 0, j, h => by
    refine ⟨le_refl _, ?_, ?_⟩
    · have : ¬ j < t.hi := by omega
      simp [scan, get, this]
    · intro k h1 h2
      simp [scan] at h2
      omega
  | fuel + 1, j, h => by
    unfold scan
    by_cases hfree : (t.get j).isNone = true
    · simp only [hfree, if_true]
      refine ⟨le_refl _, ?_, ?_⟩
      · simpa using hfree
      · intro k h1 h2
        omega
    · simp only [hfree]
      obtain ⟨h1, h2, h3⟩ := scan_spec t fuel (j + 1) (by omega)
      refine ⟨by simp only [Bool.false_eq_true, if_false]; omega, by simpa using h2, ?_⟩
      intro k hk1 hk2
      simp only [Bool.false_eq_true, if_false] at hk2
      by_cases hkj : k = j
      · subst hkj
        intro hnone
        apply hfree
        simp [hnone]
      · exact h3 k (by omega) hk2

theorem lowest_free_spec (t : FdTable) (lo : Nat) :
    lo ≤ t.lowest_free lo ∧ t.get (t.lowest_free lo) = none ∧
      ∀ k, lo ≤ k → k < t.lowest_free lo → t.get k ≠ none :=
  scan_spec t (t.hi - lo) lo (by omega)

end FdTable

theorem sys_close_open (t : FdTable) (fd : Int) (f : File) (h : t.lookup fd = some f) :
    sys_close t fd = (0, t.put fd.toNat none) := by
  simp [sys_close, h]

/-- What `stash_fd` does on an open descriptor, as an equation. -/
theorem stash_fd_open (t : FdTable) (fd : Int) (f : File) (h : t.lookup fd = some f) :
    stash_fd t fd =
      .ok ((t.lowest_free 10 : Nat),
        (t.put (t.lowest_free 10) (some f)).put fd.toNat none) := by
  have hfd : 0 ≤ fd := t.lookup_nonneg h
  have hfree := (t.lowest_free_spec 10).2.1
  have hne : fd ≠ (t.lowest_free 10 : Nat) := by
    intro heq
    rw [heq, FdTable.lookup_natCast, hfree] at h
    cases h
  have h1 : (t.put (t.lowest_free 10) (some f)).lookup fd = some f := by
    rw [FdTable.lookup_put]
    simp [hne, h]
  have hnn : ¬ ((t.lowest_free 10 : Nat) : Int) < 0 := by omega
  simp only [stash_fd, sys_fcntl_dupfd, h, hnn, if_false, sys_close, h1]
  simp

theorem stash_fd_closed (t : FdTable) (fd : Int) (h : t.lookup fd = none) :
    stash_fd t fd = .error (.fatal "fcntl") := by
  simp [stash_fd, sys_fcntl_dupfd, h, fatal_error]

/-! ## Lemmas on the system calls -/

theorem sys_close_lookup (t : FdTable) (fd k : Int) :
    (sys_close t fd).2.lookup k = if k = fd then none else t.lookup k := by
  unfold sys_close
  cases h : t.lookup fd with
  | none =>
    by_cases hk : k = fd
    · simp [hk, h]
    · simp [hk]
  | some f =>
    have hfd : 0 ≤ fd := t.lookup_nonneg h
    have : ((fd.toNat : Nat) : Int) = fd := Int.toNat_of_nonneg hfd
    simp [FdTable.lookup_put, this]

theorem sys_dup2_lookup (t : FdTable) (oldfd newfd k : Int) (f : File)
    (hold : t.lookup oldfd = some f) (hnew : 0 ≤ newfd) :
    (sys_dup2 t oldfd newfd).2.lookup k = if k = newfd then some f else t.lookup k := by
  have hn : ¬ newfd < 0 := not_lt.mpr hnew
  have hcast : ((newfd.toNat : Nat) : Int) = newfd := Int.toNat_of_nonneg hnew
  unfold sys_dup2
  simp only [hold, hn, if_false]
  by_cases heq : oldfd = newfd
  · simp only [heq, if_true]
    by_cases hk : k = newfd
    · simp [hk, ← heq, hold]
    · simp [hk]
  · simp [heq, FdTable.lookup_put, hcast]

theorem stash_fd_lookup (t : FdTable) (fd k : Int) (f : File) (h : t.lookup fd = some f) :
    ((t.put (t.lowest_free 10) (some f)).put fd.toNat none).lookup k =
      if k = fd then none
      else if k = ((t.lowest_free 10 : Nat) : Int) then some f else t.lookup k := by
  have hfd : 0 ≤ fd := t.lookup_nonneg h
  have hcast : ((fd.toNat : Nat) : Int) = fd := Int.toNat_of_nonneg hfd
  simp [FdTable.lookup_put, hcast]

/-! ## Lemmas on lists of nodes -/

theorem is_redirect_with_stash (d : t_node_data) (s : Int) :
    is_redirect { d with stashed_target_fd := s } = is_redirect d := rfl

theorem chain_node (d : t_node_data) (n c r : t_node) :
    chain (.node d n c r) = d :: chain n := rfl

theorem targets_node (d : t_node_data) (n c r : t_node) :
    targets (.node d n c r) = d.target_fd :: targets n := rfl

theorem file_fds_node (d : t_node_data) (n c r : t_node) :
    file_fds (.node d n c r) = d.file_fd :: file_fds n := rfl

theorem stashes_node (d : t_node_data) (n c r : t_node) :
    stashes (.node d n c r) = d.stashed_target_fd :: stashes n := rfl

theorem mem_targets {l : t_node} {d : t_node_data} (h : d ∈ chain l) :
    d.target_fd ∈ targets l :=
  List.mem_map_of_mem _ h

theorem mem_file_fds {l : t_node} {d : t_node_data} (h : d ∈ chain l) :
    d.file_fd ∈ file_fds l :=
  List.mem_map_of_mem _ h

theorem first_for_node (s : Int) (d : t_node_data) (n c r : t_node) :
    first_for s (.node d n c r) = if d.target_fd = s then some d else first_for s n := by
  unfold first_for
  rw [chain_node, List.find?_cons]
  by_cases h : d.target_fd = s <;> simp [h]

theorem first_for_some {s : Int} {l : t_node} {d : t_node_data}
    (h : first_for s l = some d) : d ∈ chain l ∧ d.target_fd = s := by
  unfold first_for at h
  exact ⟨List.mem_of_find?_eq_some h, by simpa using List.find?_some h⟩

theorem getLast?_cons_match {α : Type} (a : α) (xs : List α) :
    (a :: xs).getLast? = match xs.getLast? with
      | some x => some x
      | none => some a := by
  cases xs with
  | nil => rfl
  | cons b bs =>
    rw [List.getLast?_cons_cons]
    cases h : (b :: bs).getLast? with
    | none => simp at h
    | some x => rfl

theorem last_for_node (s : Int) (d : t_node_data) (n c r : t_node) :
    last_for s (.node d n c r) =
      match last_for s n with
      | some x => some x
      | none => if d.target_fd = s then some d else none := by
  unfold last_for
  rw [chain_node]
  by_cases h : d.target_fd = s
  · rw [List.filter_cons_of_pos (by simpa using h), getLast?_cons_match]
    cases ((chain n).filter (fun d => decide (d.target_fd = s))).getLast? with
    | none => simp [h]
    | some x => rfl
  · rw [List.filter_cons_of_neg (by simpa using h)]
    simp only [h, if_false]
    cases ((chain n).filter (fun d => decide (d.target_fd = s))).getLast? <;> rfl

theorem last_for_some {s : Int} {l : t_node} {d : t_node_data}
    (h : last_for s l = some d) : d ∈ chain l ∧ d.target_fd = s := by
  unfold last_for at h
  have hm := List.mem_of_getLast?_eq_some h
  rw [List.mem_filter] at hm
  exact ⟨hm.1, by simpa using hm.2⟩

/-! ## Apply followed by reset -/

theorem do_reset (l : t_node) : ∀ t : FdTable, ApplyPre t l →
    ∃ l' t' t'', do_redirect l t = .ok (l', t') ∧ DoSpec t l l' t' ∧
      reset_redirect l' t' = .ok t'' ∧ ResetSpec t l t' t'' := by
  induction l with
  | NULL =>
    intro t _
    refine ⟨.NULL, t, t, rfl, ?_, rfl, ?_⟩
    · exact ⟨rfl, rfl, by simp [chain], fun _ _ _ h => h, fun _ _ => rfl,
        by simp [stashes, chain], by simp [stashes, chain], fun _ _ _ => rfl,
        by simp [first_for, chain]⟩
    · exact ⟨fun _ _ => rfl, fun _ _ _ => rfl, by simp [file_fds, chain]⟩
  | node d next c r ih _ _ =>
    intro t hpre
    obtain ⟨hk, htg, hff, hnd⟩ := hpre
    have hred : is_redirect d = true := hk d (by simp [chain])
    obtain ⟨htlt, htopen⟩ := htg d (by simp [chain])
    obtain ⟨hfge, hfopen⟩ := hff d (by simp [chain])
    obtain ⟨f0, hf0⟩ := Option.isSome_iff_exists.mp htopen
    obtain ⟨f1, hf1⟩ := Option.isSome_iff_exists.mp hfopen
    have htnn : 0 ≤ d.target_fd := t.lookup_nonneg hf0
    rw [file_fds_node, List.nodup_cons] at hnd
    obtain ⟨hfnot, hnd'⟩ := hnd
    -- the stash slot
    obtain ⟨hs10, hsfree, _⟩ := t.lowest_free_spec 10
    generalize hs1 : t.lowest_free 10 = s1n at hs10 hsfree
    have hsfree' : t.lookup (s1n : Int) = none := by rw [FdTable.lookup_natCast]; exact hsfree
    have hs10' : (10 : Int) ≤ (s1n : Int) := by omega
    -- the table after the head has been applied
    have hstash := stash_fd_open t d.target_fd f0 hf0
    rw [hs1] at hstash
    have hL1 := fun k => stash_fd_lookup t d.target_fd k f0 hf0
    simp only [hs1] at hL1
    generalize ht1 : (t.put s1n (some f0)).put d.target_fd.toNat none = t1 at hstash hL1
    have hf1' : t1.lookup d.file_fd = some f1 := by
      rw [hL1]
      have h1 : d.file_fd ≠ d.target_fd := by omega
      have h2 : d.file_fd ≠ (s1n : Int) := by
        intro h; rw [h, hsfree'] at hf1; cases hf1
      simp [h1, h2, hf1]
    have hL2 : ∀ k, (sys_dup2 t1 d.file_fd d.target_fd).2.lookup k =
        if k = d.target_fd then some f1 else if k = (s1n : Int) then some f0
        else t.lookup k := by
      intro k
      rw [sys_dup2_lookup t1 _ _ k f1 hf1' htnn, hL1]
      by_cases hk1 : k = d.target_fd <;> simp [hk1]
    generalize ht2 : (sys_dup2 t1 d.file_fd d.target_fd).2 = t2 at hL2
    have hs1t2 : t2.lookup (s1n : Int) = some f0 := by
      rw [hL2]
      have : (s1n : Int) ≠ d.target_fd := by omega
      simp [this]
    -- the tail satisfies the preconditions on the new table
    have hpre2 : ApplyPre t2 next := by
      refine ⟨fun d' hd' => hk d' (by simp [chain, hd']), ?_, ?_, hnd'⟩
      · intro d' hd'
        obtain ⟨h1, h2⟩ := htg d' (by simp [chain, hd'])
        refine ⟨h1, ?_⟩
        rw [hL2]
        split_ifs <;> simp [h2]
      · intro d' hd'
        obtain ⟨h1, h2⟩ := hff d' (by simp [chain, hd'])
        refine ⟨h1, ?_⟩
        rw [hL2]
        split_ifs <;> simp [h2]
    obtain ⟨next', t3, t4, hdo, D, hreset, R⟩ := ih t2 hpre2
    -- facts on slots of the tail
    have hfile_t2 : ∀ d' ∈ chain next, t2.lookup d'.file_fd = t.lookup d'.file_fd := by
      intro d' hd'
      obtain ⟨h1, h2⟩ := hff d' (by simp [chain, hd'])
      rw [hL2]
      have e1 : d'.file_fd ≠ d.target_fd := by omega
      have e2 : d'.file_fd ≠ (s1n : Int) := by
        intro h; rw [h, hsfree'] at h2; cases h2
      simp [e1, e2]
    have hs1_files : (s1n : Int) ∉ file_fds next := by
      intro hmem
      obtain ⟨d', hd', hd'eq⟩ := List.mem_map.mp hmem
      obtain ⟨_, h2⟩ := hff d' (by simp [chain, hd'])
      rw [hd'eq, hsfree'] at h2
      cases h2
    have hs1_targets : (s1n : Int) ∉ targets next := by
      intro hmem
      obtain ⟨d', hd', hd'eq⟩ := List.mem_map.mp hmem
      obtain ⟨h1, _⟩ := htg d' (by simp [chain, hd'])
      omega
    have hs1t3 : t3.lookup (s1n : Int) = some f0 := D.keep_high _ _ hs10' hs1t2
    have hs1t4 : t4.lookup (s1n : Int) = some f0 := by
      rw [R.frame _ hs1_files hs1_targets]; exact hs1t3
    -- the reset of the head
    have hne_sf : (s1n : Int) ≠ d.file_fd := by
      intro h; rw [← h, hsfree'] at hf1; cases hf1
    have hne_st : (s1n : Int) ≠ d.target_fd := by omega
    have hne_ft : d.file_fd ≠ d.target_fd := by omega
    have hL7 : ∀ k, (sys_dup2 (sys_close (sys_close t4 d.file_fd).2 d.target_fd).2
        (s1n : Int) d.target_fd).2.lookup k =
        if k = d.target_fd then some f0 else if k = d.file_fd then none
        else t4.lookup k := by
      intro k
      have h6 : (sys_close (sys_close t4 d.file_fd).2 d.target_fd).2.lookup (s1n : Int)
          = some f0 := by
        rw [sys_close_lookup, sys_close_lookup]
        simp [hne_sf, hne_st, hs1t4]
      rw [sys_dup2_lookup _ _ _ k f0 h6 htnn, sys_close_lookup, sys_close_lookup]
      by_cases hk1 : k = d.target_fd <;> simp [hk1]
    generalize ht7 : (sys_dup2 (sys_close (sys_close t4 d.file_fd).2 d.target_fd).2
        (s1n : Int) d.target_fd).2 = t7 at hL7
    refine ⟨.node { d with stashed_target_fd := (s1n : Int) } next' c r, t3, t7, ?_, ?_, ?_, ?_⟩
    · -- do_redirect returns
      simp only [do_redirect, hred, if_true, hstash, ht2, hdo]
    · -- DoSpec
      constructor
      · rw [targets_node, targets_node, D.targets_eq]
      · rw [file_fds_node, file_fds_node, D.file_fds_eq]
      · intro d' hd'
        rw [chain_node, List.mem_cons] at hd'
        rcases hd' with rfl | hd'
        · exact hred
        · exact D.kinds d' hd'
      · intro fd f hfd hopen
        apply D.keep_high fd f hfd
        rw [hL2]
        have e1 : fd ≠ d.target_fd := by omega
        have e2 : fd ≠ (s1n : Int) := by
          intro h; rw [h, hsfree'] at hopen; cases hopen
        simp [e1, e2, hopen]
      · intro s hs
        rw [D.low s hs, last_for_node]
        cases hl : last_for s next with
        | some dl =>
          simp only
          exact hfile_t2 dl (last_for_some hl).1
        | none =>
          simp only
          rw [hL2]
          by_cases e : d.target_fd = s
          · subst e
            simp [hf1]
          · have e1 : s ≠ d.target_fd := fun h => e h.symm
            have e2 : s ≠ (s1n : Int) := by omega
            simp [e, e1, e2]
      · rw [stashes_node, List.nodup_cons]
        refine ⟨?_, D.stash_nodup⟩
        intro hmem
        have := (D.stash_fresh _ hmem).2.1
        rw [hs1t2] at this
        cases this
      · intro s hs
        rw [stashes_node, List.mem_cons] at hs
        rcases hs with rfl | hs
        · exact ⟨hs10', hsfree', by simp [hs1t3]⟩
        · obtain ⟨h1, h2, h3⟩ := D.stash_fresh s hs
          refine ⟨h1, ?_, h3⟩
          rw [hL2] at h2
          have e1 : s ≠ d.target_fd := by omega
          by_cases e2 : s = (s1n : Int)
          · rw [e2]; exact hsfree'
          · simpa [e1, e2] using h2
      · intro fd hfd hnot
        rw [stashes_node, List.mem_cons, not_or] at hnot
        rw [D.high_frame fd hfd hnot.2, hL2]
        have e1 : fd ≠ d.target_fd := by omega
        simp [e1, hnot.1]
      · intro s d' hfirst
        rw [first_for_node] at hfirst
        by_cases e : d.target_fd = s
        · simp only [e, if_true, Option.some.injEq] at hfirst
          subst hfirst
          simp only
          rw [hs1t3, ← e, hf0]
        · simp only [e, if_false] at hfirst
          rw [D.first_saved s d' hfirst, hL2]
          obtain ⟨hmem, hts⟩ := first_for_some hfirst
          have hmem' : s ∈ targets next := by
            rw [← D.targets_eq, ← hts]; exact mem_targets hmem
          obtain ⟨d0, hd0, hd0eq⟩ := List.mem_map.mp hmem'
          obtain ⟨h1, _⟩ := htg d0 (by simp [chain, hd0])
          have e1 : s ≠ d.target_fd := fun h => e h.symm
          have e2 : s ≠ (s1n : Int) := by
            omega
          simp [e1, e2]
    · -- reset_redirect returns
      simp only [reset_redirect, hreset, is_redirect_with_stash, hred, if_true, ht7]
    · -- ResetSpec
      constructor
      · intro s hs
        rw [hL7]
        by_cases e : s = d.target_fd
        · simp [e, hf0]
        · have e1 : s ≠ d.file_fd := by omega
          have e2 : s ≠ (s1n : Int) := by omega
          simp only [e, e1, if_false]
          rw [R.low_restored s hs, hL2]
          simp [e, e2]
      · intro fd hnf hnt
        rw [file_fds_node, List.mem_cons, not_or] at hnf
        rw [targets_node, List.mem_cons, not_or] at hnt
        rw [hL7]
        simp only [hnt.1, hnf.1, if_false]
        exact R.frame fd hnf.2 hnt.2
      · intro fd hfd
        rw [file_fds_node, List.mem_cons] at hfd
        rw [hL7]
        rcases hfd with rfl | hfd
        · simp [hne_ft]
        · obtain ⟨d', hd', hd'eq⟩ := List.mem_map.mp hfd
          obtain ⟨h1, _⟩ := hff d' (by simp [chain, hd'])
          have e1 : fd ≠ d.target_fd := by
            omega
          simp only [e1, if_false]
          split_ifs
          · rfl
          · exact R.closed fd hfd

/-! ## Lemmas on `read_heredoc` -/

theorem utf8ByteSize_go_append : ∀ (a b : List Char),
    String.utf8ByteSize.go (a ++ b) = String.utf8ByteSize.go a + String.utf8ByteSize.go b
  | [], b => by simp [String.utf8ByteSize.go]
  | c :: cs, b => by
    show String.utf8ByteSize.go (cs ++ b) + c.utf8Size =
      (String.utf8ByteSize.go cs + c.utf8Size) + String.utf8ByteSize.go b
    rw [utf8ByteSize_go_append cs b]
    omega

theorem byte_count_append (a b : String) :
    byte_count (a ++ b) = byte_count a + byte_count b := by
  cases a with
  | mk la =>
    cases b with
    | mk lb => exact utf8ByteSize_go_append la lb

theorem byte_count_empty : byte_count "" = 0 := rfl

theorem sys_write_fds (w w' : World) (fd : Int) (text : String)
    (h : sys_write w fd text = .ok w') :
    w'.fds = w.fds ∧ w'.readline_interrupted = w.readline_interrupted := by
  unfold sys_write at h
  split at h
  · split at h
    · simp only [Except.ok.injEq] at h
      subst h
      exact ⟨rfl, rfl⟩
    · cases h
  · simp only [Except.ok.injEq] at h
    subst h
    exact ⟨rfl, rfl⟩

theorem sys_write_pipe (w : World) (fd : Int) (text : String) (p : Nat)
    (h : w.fds.lookup fd = some (.pipe_write p))
    (hfit : byte_count (w.pipes p) + byte_count text ≤ w.pipe_capacity) :
    sys_write w fd text =
      .ok { w with pipes := fun q => if q = p then w.pipes p ++ text else w.pipes q } := by
  unfold sys_write
  simp [h, hfit]

theorem heredoc_loop_fds (E : Env) (delimiter : String) (u : Bool) (wfd : Int) :
    ∀ (evs : List ReadEvent) (w w3 : World),
      heredoc_loop E delimiter u wfd evs w = .ok w3 → w3.fds = w.fds
  | [], w, w3, h => by
    simp only [heredoc_loop, Except.ok.injEq] at h
    subst h; rfl
  | ev :: rest, w, w3, h => by
    unfold heredoc_loop at h
    simp only at h
    split at h
    · cases h; rfl
    · split_ifs at h <;>
        first
        | (cases h; rfl)
        | (split at h
           · cases h
           · rename_i w2 hw
             rw [heredoc_loop_fds E delimiter u wfd rest w2 w3 h,
               (sys_write_fds _ _ _ _ hw).1])

/-- Accepted lines whose text fits in the pipe are written one after the other
and the loop goes on with the rest of the input. -/
theorem heredoc_loop_accept (E : Env) (delimiter : String) (u : Bool) (wfd : Int) (p : Nat)
    (tail : List ReadEvent) :
    ∀ (lines : List String) (w : World), w.readline_interrupted = false →
      (∀ l ∈ lines, l ≠ delimiter) → w.fds.lookup wfd = some (.pipe_write p) →
      byte_count (w.pipes p) + byte_count (heredoc_text E u lines) ≤ w.pipe_capacity →
      ∃ w1, w1.fds = w.fds ∧ w1.readline_interrupted = false ∧
        w1.pipes p = w.pipes p ++ heredoc_text E u lines ∧
        w1.pipe_capacity = w.pipe_capacity ∧
        heredoc_loop E delimiter u wfd (lines.map accepted ++ tail) w =
          heredoc_loop E delimiter u wfd tail w1
  | [], w, hflag, _, _, _ => ⟨w, rfl, hflag, by simp [heredoc_text], rfl, rfl⟩
  | l :: ls, w, hflag, hne, hw, hfit => by
    have hl : l ≠ delimiter := hne l (by simp)
    simp only [heredoc_text, byte_count_append] at hfit
    have hwrite := sys_write_pipe
      { w with input := ls.map accepted ++ tail,
               readline_interrupted := w.readline_interrupted || false } wfd
      ((if u = true then E.expand_heredoc_line l else l) ++ "\n") p hw
      (by simp only [byte_count_append]; omega)
    obtain ⟨w1, h1, h2, h3, hcap, h4⟩ := heredoc_loop_accept E delimiter u wfd p tail ls
      { w with input := ls.map accepted ++ tail,
               readline_interrupted := w.readline_interrupted || false,
               pipes := fun q => if q = p then
                 w.pipes p ++ ((if u = true then E.expand_heredoc_line l else l) ++ "\n")
                 else w.pipes q }
      (by simp [hflag])
      (fun x hx => hne x (by simp [hx]))
      hw
      (by simp only [if_true, byte_count_append]; omega)
    refine ⟨w1, h1, h2, ?_, hcap, ?_⟩
    · rw [h3]
      simp [heredoc_text, String.append_assoc]
    · rw [← h4]
      simp only [hflag, Bool.or_false] at hwrite
      simp [heredoc_loop, accepted, hflag, hl, hwrite]
/-- The table after `pipe`: two slots that were free now hold the two ends. -/
theorem pipe_table (t : FdTable) (p : Nat) :
    ∃ r s : Nat, r = t.lowest_free 0 ∧
      s = (t.put r (some (.pipe_read p))).lowest_free 0 ∧
      t.lookup (r : Int) = none ∧ t.lookup (s : Int) = none ∧ (r : Int) ≠ (s : Int) ∧
      ∀ k, ((t.put r (some (.pipe_read p))).put s (some (.pipe_write p))).lookup k =
        if k = (s : Int) then some (.pipe_write p)
        else if k = (r : Int) then some (.pipe_read p) else t.lookup k := by
  refine ⟨t.lowest_free 0, (t.put (t.lowest_free 0) (some (.pipe_read p))).lowest_free 0,
    rfl, rfl, ?_⟩
  obtain ⟨_, hr, _⟩ := t.lowest_free_spec 0
  obtain ⟨_, hs, _⟩ := (t.put (t.lowest_free 0) (some (.pipe_read p))).lowest_free_spec 0
  generalize t.lowest_free 0 = r at hr hs ⊢
  generalize (t.put r (some (.pipe_read p))).lowest_free 0 = s at hs ⊢
  rw [FdTable.get_put] at hs
  have hne : s ≠ r := by
    intro h
    simp [h] at hs
  simp only [hne, if_false] at hs
  refine ⟨by rw [FdTable.lookup_natCast]; exact hr, by rw [FdTable.lookup_natCast]; exact hs,
    by omega, ?_⟩
  intro k
  rw [FdTable.lookup_put, FdTable.lookup_put]

/-- How `read_heredoc` runs on an input that starts with accepted lines whose
text fits in a pipe: the loop is left with `tail`, the pipe holds the text of
the lines, and the possible results are described slot by slot. -/
theorem read_heredoc_run (E : Env) (w : World) (delimiter : String) (u : Bool)
    (lines : List String) (tail : List ReadEvent)
    (hin : w.input = lines.map accepted ++ tail) (hne : ∀ l ∈ lines, l ≠ delimiter)
    (hfit : byte_count (heredoc_text E u lines) ≤ w.pipe_capacity) :
    ∃ (r s : Nat) (w1 : World), r = w.fds.lowest_free 0 ∧ w.fds.lookup (r : Int) = none ∧
      w1.readline_interrupted = false ∧
      w1.pipes w.npipes = heredoc_text E u lines ∧
      w1.pipe_capacity = w.pipe_capacity ∧
      w1.fds.lookup (s : Int) = some (.pipe_write w.npipes) ∧
      (∀ k, (sys_close w1.fds (s : Int)).2.lookup k =
        if k = (r : Int) then some (.pipe_read w.npipes) else w.fds.lookup k) ∧
      (∀ k, (sys_close (sys_close w1.fds (s : Int)).2 (r : Int)).2.lookup k
        = w.fds.lookup k) ∧
      read_heredoc E w delimiter u =
        match heredoc_loop E delimiter u (s : Int) tail w1 with
        | .error e => .error e
        | .ok w3 =>
          if w3.readline_interrupted = true then
            .ok (-1, { w3 with fds := (sys_close (sys_close w3.fds (s : Int)).2 (r : Int)).2 })
          else
            .ok ((r : Int), { w3 with fds := (sys_close w3.fds (s : Int)).2 }) := by
  obtain ⟨r, s, hr, hs, hrfree, hsfree, hrs, hL⟩ := pipe_table w.fds w.npipes
  have hws : ((w.fds.put r (some (.pipe_read w.npipes))).put s
      (some (.pipe_write w.npipes))).lookup (s : Int) = some (.pipe_write w.npipes) := by
    rw [hL]; simp
  obtain ⟨w1, h1, h2, h3, hcap, h4⟩ :=
    heredoc_loop_accept E delimiter u (s : Int) w.npipes tail lines
    { w with fds := (w.fds.put r (some (.pipe_read w.npipes))).put s
                (some (.pipe_write w.npipes)),
             pipes := fun q => if q = w.npipes then "" else w.pipes q,
             npipes := w.npipes + 1,
             readline_interrupted := false }
    rfl hne hws (by simpa [byte_count_empty] using hfit)
  simp only at h1 h3
  have hC1 : ∀ k, (sys_close w1.fds (s : Int)).2.lookup k =
      if k = (r : Int) then some (.pipe_read w.npipes) else w.fds.lookup k := by
    intro k
    rw [sys_close_lookup, h1, hL]
    by_cases hk : k = (s : Int)
    · have hsr : s ≠ r := by omega
      simp [hk, hsfree, hsr]
    · simp [hk]
  refine ⟨r, s, w1, hr, hrfree, h2, by simpa using h3, hcap, by rw [h1]; exact hws, hC1,
    ?_, ?_⟩
  · intro k
    rw [sys_close_lookup, hC1]
    by_cases hk : k = (r : Int)
    · simp [hk, hrfree]
    · simp [hk]
  · rw [← hin] at h4
    simp only [read_heredoc, sys_pipe, ← hr, ← hs, lt_self_iff_false, if_false]
    rw [h4]

theorem heredoc_loop_stop (E : Env) (delimiter : String) (u : Bool) (wfd : Int)
    (tail : List ReadEvent) (w1 : World) (hflag : w1.readline_interrupted = false)
    (htail : tail = [] ∨ ∃ ev rest, tail = ev :: rest ∧ ev.interrupt = false ∧
      (ev.line = none ∨ ev.line = some delimiter)) :
    ∃ w3, heredoc_loop E delimiter u wfd tail w1 = .ok w3 ∧
      w3.readline_interrupted = false ∧ w3.pipes = w1.pipes ∧ w3.fds = w1.fds := by
  rcases htail with rfl | ⟨ev, rest, rfl, hint, hline | hline⟩
  · exact ⟨_, rfl, hflag, rfl, rfl⟩
  · refine ⟨({ w1 with input := rest, readline_interrupted := false } : World),
      ?_, rfl, rfl, rfl⟩
    simp [heredoc_loop, hline, hflag, hint]
  · refine ⟨({ w1 with input := rest, readline_interrupted := false } : World),
      ?_, rfl, rfl, rfl⟩
    simp [heredoc_loop, hline, hflag, hint]

theorem heredoc_loop_cancel (E : Env) (delimiter : String) (u : Bool) (wfd : Int)
    (ev : ReadEvent) (rest : List ReadEvent) (w1 : World) (hint : ev.interrupt = true) :
    ∃ w3, heredoc_loop E delimiter u wfd (ev :: rest) w1 = .ok w3 ∧
      w3.readline_interrupted = true ∧ w3.pipes = w1.pipes ∧ w3.input = rest ∧
      w3.fds = w1.fds := by
  refine ⟨({ w1 with input := rest, readline_interrupted := true } : World),
    ?_, rfl, rfl, rfl, rfl⟩
  cases hline : ev.line <;> simp [heredoc_loop, hline, hint]

/-- The successful end of a capture: after the accepted `lines`, whose text
fits in the pipe, the loop stops with the flag clear. -/
theorem read_heredoc_success (E : Env) (w : World) (delimiter : String) (u : Bool)
    (lines : List String) (tail : List ReadEvent)
    (hin : w.input = lines.map accepted ++ tail) (hne : ∀ l ∈ lines, l ≠ delimiter)
    (hfit : byte_count (heredoc_text E u lines) ≤ w.pipe_capacity)
    (htail : tail = [] ∨ ∃ ev rest, tail = ev :: rest ∧ ev.interrupt = false ∧
      (ev.line = none ∨ ev.line = some delimiter)) :
    ∃ r w', read_heredoc E w delimiter u = .ok (r, w') ∧ 0 ≤ r ∧
      w.fds.lookup r = none ∧
      w'.fds.lookup r = some (.pipe_read w.npipes) ∧
      (∀ k, k ≠ r → w'.fds.lookup k = w.fds.lookup k) ∧
      w'.pipes w.npipes = heredoc_text E u lines := by
  obtain ⟨r, s, w1, _, hrfree, hflag, hpipe, _, _, hC1, _, heq⟩ :=
    read_heredoc_run E w delimiter u lines tail hin hne hfit
  obtain ⟨w3, hloop, hstop, hpipes, hfds⟩ :=
    heredoc_loop_stop E delimiter u (s : Int) tail w1 hflag htail
  rw [hloop] at heq
  simp only [hstop, Bool.false_eq_true, if_false, hfds] at heq
  refine ⟨_, _, heq, by omega, hrfree, ?_, ?_, ?_⟩
  · simp only; rw [hC1]; simp
  · intro k hk
    simp only; rw [hC1]; simp [hk]
  · simp only; rw [hpipes, hpipe]

theorem is_redirect_of_kind (d : t_node_data) (h1 : d.kind ≠ ND_PIPELINE)
    (h2 : d.kind ≠ ND_SIMPLE_CMD) : is_redirect d = true := by
  unfold is_redirect
  cases hk : d.kind <;> simp_all

theorem redir_nodes_redirect : ∀ (tree : t_node), ∀ d ∈ redir_nodes tree, is_redirect d = true
  | .NULL => by simp [redir_nodes]
  | .node d next command redirects => by
    intro x hx
    unfold redir_nodes at hx
    by_cases hp : d.kind = ND_PIPELINE
    · simp only [hp, if_true, List.mem_append] at hx
      rcases hx with hx | hx
      · exact redir_nodes_redirect command x hx
      · exact redir_nodes_redirect next x hx
    · by_cases hs : d.kind = ND_SIMPLE_CMD
      · simp only [hs, if_true] at hx
        simp only [show ¬ (ND_SIMPLE_CMD = ND_PIPELINE) by decide, if_false] at hx
        exact redir_nodes_redirect redirects x hx
      · simp only [hp, hs, if_false, List.mem_cons] at hx
        rcases hx with rfl | hx
        · exact is_redirect_of_kind _ hp hs
        · exact redir_nodes_redirect next x hx

theorem resolve_seq_status (E : Env) : ∀ (ds : List t_node_data) (w : World)
    (r : Int) (ds' : List t_node_data) (w' : World),
    resolve_seq E ds w = .ok (r, ds', w') → r = 0 ∨ r = -1
  | [], w, r, ds', w', h => by
    simp only [resolve_seq, Except.ok.injEq, Prod.mk.injEq] at h
    exact Or.inl h.1.symm
  | d :: ds, w, r, ds', w', h => by
    unfold resolve_seq at h
    cases ho : open_target E d w with
    | error e => simp [ho] at h
    | ok x =>
      obtain ⟨fd, w1⟩ := x
      simp only [ho] at h
      by_cases hfd : fd < 0
      · simp only [hfd, if_true, Except.ok.injEq, Prod.mk.injEq] at h
        exact Or.inr h.1.symm
      · simp only [hfd, if_false] at h
        cases hst : stash_fd w1.fds fd with
        | error e => simp [hst] at h
        | ok y =>
          obtain ⟨fd', t'⟩ := y
          simp only [hst] at h
          cases hrec : resolve_seq E ds { w1 with fds := t' } with
          | error e => simp [hrec] at h
          | ok z =>
            obtain ⟨r2, ds2, w2⟩ := z
            simp only [hrec, Except.ok.injEq, Prod.mk.injEq] at h
            rw [← h.1]
            exact resolve_seq_status E ds _ r2 ds2 w2 hrec

theorem resolve_seq_append (E : Env) (ys : List t_node_data) :
    ∀ (xs : List t_node_data) (w : World),
    resolve_seq E (xs ++ ys) w =
      match resolve_seq E xs w with
      | .error e => .error e
      | .ok (r, xs', w1) =>
        if r < 0 then .ok (r, xs' ++ ys, w1)
        else
          match resolve_seq E ys w1 with
          | .error e => .error e
          | .ok (r2, ys', w2) => .ok (r2, xs' ++ ys', w2)
  | [], w => by
    simp only [List.nil_append, resolve_seq, lt_self_iff_false, if_false]
    cases resolve_seq E ys w with
    | error e => rfl
    | ok x => rfl
  | d :: xs, w => by
    simp only [List.cons_append, resolve_seq]
    cases ho : open_target E d w with
    | error e => rfl
    | ok x =>
      obtain ⟨fd, w1⟩ := x
      simp only
      by_cases hfd : fd < 0
      · simp [hfd]
      · simp only [hfd, if_false]
        cases hst : stash_fd w1.fds fd with
        | error e => rfl
        | ok y =>
          obtain ⟨fd', t'⟩ := y
          simp only
          rw [List.append_eq, resolve_seq_append E ys xs]
          cases hrec : resolve_seq E xs { w1 with fds := t' } with
          | error e => rfl
          | ok z =>
            obtain ⟨r2, xs2, w2⟩ := z
            simp only
            by_cases hr2 : r2 < 0
            · simp [hr2]
            · simp only [hr2, if_false]
              cases resolve_seq E ys w2 with
              | error e => rfl
              | ok u => rfl

/-- The tree walk of `open_redir_file` is the sequential resolution of the
redirection nodes in depth-first order. -/
theorem open_redir_file_refines (E : Env) : ∀ (tree : t_node) (w : World),
    flat (open_redir_file E tree w) = resolve_seq E (redir_nodes tree) w := by
  intro tree
  induction tree with
  | NULL => intro w; rfl
  | node d next command redirects ihn ihc ihr =>
    intro w
    by_cases hp : d.kind = ND_PIPELINE
    · simp only [open_redir_file, redir_nodes, hp, if_true]
      rw [resolve_seq_append, ← ihc w]
      cases hc : open_redir_file E command w with
      | error e => rfl
      | ok x =>
        obtain ⟨r1, c', w1⟩ := x
        have hst : r1 = 0 ∨ r1 = -1 :=
          resolve_seq_status E (redir_nodes command) w r1 (redir_nodes c') w1
            (by rw [← ihc w, hc]; rfl)
        simp only [flat]
        rcases hst with rfl | rfl
        · simp only [lt_self_iff_false, if_false]
          rw [← ihn w1]
          cases hn : open_redir_file E next w1 with
          | error e => rfl
          | ok y =>
            obtain ⟨r2, n', w2⟩ := y
            have hst2 : r2 = 0 ∨ r2 = -1 :=
              resolve_seq_status E (redir_nodes next) w1 r2 (redir_nodes n') w2
                (by rw [← ihn w1, hn]; rfl)
            rcases hst2 with rfl | rfl
            · simp [flat, redir_nodes, hp]
            · simp [flat, redir_nodes, hp]
        · simp [redir_nodes, hp]
    · by_cases hs : d.kind = ND_SIMPLE_CMD
      · have hsp : ¬ (ND_SIMPLE_CMD = ND_PIPELINE) := by decide
        simp only [open_redir_file, redir_nodes, hs, hsp, if_true, if_false]
        rw [← ihr w]
        cases hc : open_redir_file E redirects w with
        | error e => rfl
        | ok x =>
          obtain ⟨r1, c', w1⟩ := x
          simp [flat, redir_nodes, hs]
      · simp only [open_redir_file, redir_nodes, hp, hs, if_false, resolve_seq]
        cases ho : open_target E d w with
        | error e => rfl
        | ok x =>
          obtain ⟨fd, w1⟩ := x
          simp only
          by_cases hfd : fd < 0
          · simp [hfd, flat, redir_nodes, hp, hs]
          · simp only [hfd, if_false]
            cases hst : stash_fd w1.fds fd with
            | error e => rfl
            | ok y =>
              obtain ⟨fd', t'⟩ := y
              simp only
              rw [← ihn]
              cases hn : open_redir_file E next { w1 with fds := t' } with
              | error e => rfl
              | ok z =>
                obtain ⟨r2, n', w2⟩ := z
                simp [flat, redir_nodes, hp, hs]

theorem sys_open_effect (E : Env) (w : World) (path : String) (how : OpenHow) :
    OpenEffect w.fds (sys_open E w path how).1 (sys_open E w path how).2.fds := by
  unfold sys_open
  by_cases hc : E.can_open w.nopens path how = true
  · simp only [hc, if_true]
    right
    obtain ⟨_, hfree, _⟩ := w.fds.lowest_free_spec 0
    refine ⟨by omega, by rw [FdTable.lookup_natCast]; exact hfree,
      ⟨.opened w.nopens, ?_⟩, ?_⟩
    · rw [FdTable.lookup_put]; simp
    · intro k hk
      rw [FdTable.lookup_put]; simp [hk]
  · have hc' : E.can_open w.nopens path how = false := by simpa using hc
    simp only [hc', Bool.false_eq_true, if_false]
    left
    exact ⟨by decide, fun _ => rfl⟩

theorem read_heredoc_effect (E : Env) (w : World) (delimiter : String) (u : Bool)
    (fd : Int) (w' : World) (h : read_heredoc E w delimiter u = .ok (fd, w')) :
    OpenEffect w.fds fd w'.fds := by
  obtain ⟨r, s, w1, _, hrfree, _, _, _, _, hC1, hC2, heq⟩ :=
    read_heredoc_run E w delimiter u [] w.input (by simp) (by simp)
      (by simp [heredoc_text, byte_count_empty])
  rw [heq] at h
  cases hloop : heredoc_loop E delimiter u (s : Int) w.input w1 with
  | error e => simp [hloop] at h
  | ok w3 =>
    have hfds := heredoc_loop_fds E delimiter u (s : Int) w.input w1 w3 hloop
    simp only [hloop, hfds] at h
    by_cases hflag : w3.readline_interrupted = true
    · simp only [hflag, if_true, Except.ok.injEq, Prod.mk.injEq] at h
      obtain ⟨rfl, rfl⟩ := h
      exact Or.inl ⟨by decide, hC2⟩
    · simp only [hflag, if_false, Except.ok.injEq, Prod.mk.injEq] at h
      obtain ⟨rfl, rfl⟩ := h
      refine Or.inr ⟨by omega, hrfree, ⟨.pipe_read w.npipes, ?_⟩, ?_⟩
      · simp only; rw [hC1]; simp
      · intro k hk
        simp only; rw [hC1]; simp [hk]

theorem open_target_effect (E : Env) (d : t_node_data) (w : World)
    (hred : is_redirect d = true) (fd : Int) (w' : World)
    (h : open_target E d w = .ok (fd, w')) : OpenEffect w.fds fd w'.fds := by
  unfold open_target at h
  cases hk : d.kind
  · simp [is_redirect, hk] at hred
  · simp [is_redirect, hk] at hred
  · simp [hk] at h
    have e := sys_open_effect E w d.filename .creat_wronly_trunc_0644
    rw [h] at e
    exact e
  · simp [hk] at h
    have e := sys_open_effect E w d.filename .rdonly
    rw [h] at e
    exact e
  · simp [hk] at h
    have e := sys_open_effect E w d.filename .creat_wronly_append_0644
    rw [h] at e
    exact e
  · simp only [hk, if_true] at h
    simp only [show ¬ (ND_REDIR_HEREDOC = ND_REDIR_OUT) by decide,
      show ¬ (ND_REDIR_HEREDOC = ND_REDIR_IN) by decide,
      show ¬ (ND_REDIR_HEREDOC = ND_REDIR_APPEND) by decide, if_false] at h
    exact read_heredoc_effect E w d.delimiter d.is_delim_unquoted fd w' h

theorem report_failure_fds (d : t_node_data) (w : World) :
    (report_failure d w).fds = w.fds := by
  unfold report_failure xperror
  split <;> rfl

/-- A successful node: the target is opened on a free slot, stashed on a free
slot at or above 10, and every descriptor that was open stays as it was. -/
theorem open_then_stash (t t1 : FdTable) (fd : Int) (h : OpenEffect t fd t1) (hfd : ¬ fd < 0) :
    ∃ (r : Nat) (t2 : FdTable), stash_fd t1 fd = .ok ((r : Int), t2) ∧ 10 ≤ r ∧
      t.lookup (r : Int) = none ∧ (t2.lookup (r : Int)).isSome = true ∧
      ∀ k f, t.lookup k = some f → t2.lookup k = some f := by
  rcases h with ⟨hneg, _⟩ | ⟨_, hfree, ⟨f, hopen⟩, hframe⟩
  · exact absurd hneg hfd
  · obtain ⟨h10, hrfree, _⟩ := t1.lowest_free_spec 10
    have hrfree' : t1.lookup ((t1.lowest_free 10 : Nat) : Int) = none := by
      rw [FdTable.lookup_natCast]; exact hrfree
    have hne : ((t1.lowest_free 10 : Nat) : Int) ≠ fd := by
      intro h; rw [h, hopen] at hrfree'; cases hrfree'
    refine ⟨t1.lowest_free 10, _, stash_fd_open t1 fd f hopen, h10, ?_, ?_, ?_⟩
    · rw [← hframe _ hne]; exact hrfree'
    · rw [stash_fd_lookup t1 fd _ f hopen]; simp [hne]
    · intro k g hk
      have hkfd : k ≠ fd := by
        intro h; rw [h, hfree] at hk; cases hk
      have hk1 : t1.lookup k = some g := by rw [hframe k hkfd]; exact hk
      have hkr : k ≠ ((t1.lowest_free 10 : Nat) : Int) := by
        intro h; rw [h, hrfree'] at hk1; cases hk1
      rw [stash_fd_lookup t1 fd k f hopen]
      simp [hkfd, hkr, hk1]

/-- When the sequential resolution returns: the nodes are the same apart from
`file_fd`, open descriptors stay open, and on success the resolved descriptors
are fresh slots at or above 10, open at the end and pairwise distinct. -/
theorem resolve_seq_spec (E : Env) : ∀ (ds : List t_node_data) (w : World)
    (r : Int) (ds' : List t_node_data) (w' : World),
    (∀ d ∈ ds, is_redirect d = true) → resolve_seq E ds w = .ok (r, ds', w') →
      ds'.map (fun d => { d with file_fd := 0 }) = ds.map (fun d => { d with file_fd := 0 }) ∧
      (∀ k f, w.fds.lookup k = some f → w'.fds.lookup k = some f) ∧
      (r = 0 →
        (∀ d ∈ ds', 10 ≤ d.file_fd ∧ w.fds.lookup d.file_fd = none ∧
          (w'.fds.lookup d.file_fd).isSome = true) ∧
        (ds'.map (fun d => d.file_fd)).Nodup)
  | [], w, r, ds', w', _, h => by
    simp only [resolve_seq, Except.ok.injEq, Prod.mk.injEq] at h
    obtain ⟨_, hds, hw⟩ := h
    subst hds hw
    exact ⟨rfl, fun _ _ h => h, fun _ => ⟨by simp, by simp⟩⟩
  | d :: ds, w, r, ds', w', hred, h => by
    unfold resolve_seq at h
    cases ho : open_target E d w with
    | error e => simp [ho] at h
    | ok x =>
      obtain ⟨fd, w1⟩ := x
      have heff := open_target_effect E d w (hred d (by simp)) fd w1 ho
      simp only [ho] at h
      by_cases hfd : fd < 0
      · simp only [hfd, if_true, Except.ok.injEq, Prod.mk.injEq] at h
        obtain ⟨hr, hds, hw⟩ := h
        subst hr hds hw
        refine ⟨by simp, ?_, ?_⟩
        · intro k f hk
          rcases heff with ⟨_, hsame⟩ | ⟨hnn, _⟩
          · rw [report_failure_fds, hsame]; exact hk
          · omega
        · intro h0; cases h0
      · simp only [hfd, if_false] at h
        obtain ⟨s, t2, hst, h10, hsfree, hsopen, hmono⟩ :=
          open_then_stash w.fds w1.fds fd heff hfd
        simp only [hst] at h
        cases hrec : resolve_seq E ds { w1 with fds := t2 } with
        | error e => simp [hrec] at h
        | ok z =>
          obtain ⟨r2, ds2, w2⟩ := z
          simp only [hrec, Except.ok.injEq, Prod.mk.injEq] at h
          obtain ⟨hr, hds, hw⟩ := h
          subst hr hds hw
          obtain ⟨hshape, hmono2, hok⟩ :=
            resolve_seq_spec E ds _ r2 ds2 w2 (fun x hx => hred x (by simp [hx])) hrec
          refine ⟨by simp [hshape], fun k f hk => hmono2 k f (hmono k f hk), ?_⟩
          intro hr2
          obtain ⟨hall, hnd⟩ := hok hr2
          obtain ⟨fr, hfr⟩ := Option.isSome_iff_exists.mp hsopen
          constructor
          · intro x hx
            rw [List.mem_cons] at hx
            rcases hx with rfl | hx
            · exact ⟨by simp only; omega, hsfree, by
                simp only
                rw [hmono2 _ fr hfr]; rfl⟩
            · obtain ⟨a, b, c⟩ := hall x hx
              refine ⟨a, ?_, c⟩
              cases hw : w.fds.lookup x.file_fd with
              | none => rfl
              | some g =>
                have := hmono _ g hw
                simp only at b
                rw [b] at this
                cases this
          · rw [List.map_cons, List.nodup_cons]
            refine ⟨?_, hnd⟩
            intro hmem
            obtain ⟨x, hx, hxeq⟩ := List.mem_map.mp hmem
            have := (hall x hx).2.1
            simp only at hxeq this
            rw [hxeq, hfr] at this
            cases this

theorem resolve_seq_first_failure (E : Env) (k : t_node_data) (post : List t_node_data)
    (pre : List t_node_data) (w : World) (pre' : List t_node_data) (wk : World)
    (fd : Int) (wk' : World) (hpre : resolve_seq E pre w = .ok (0, pre', wk))
    (hopen : open_target E k wk = .ok (fd, wk')) (hfd : fd < 0) :
    resolve_seq E (pre ++ k :: post) w =
      .ok (-1, pre' ++ { k with file_fd := fd } :: post, report_failure k wk') := by
  rw [resolve_seq_append, hpre]
  simp [resolve_seq, hopen, hfd]

theorem resolve_seq_failure (E : Env) : ∀ (ds : List t_node_data) (w : World)
    (ds' : List t_node_data) (w' : World), resolve_seq E ds w = .ok (-1, ds', w') →
    ∃ pre k post pre' fd wk', FirstFailure E ds w pre k post pre' fd wk'
  | [], w, ds', w', h => by
    simp [resolve_seq] at h
  | d :: ds, w, ds', w', h => by
    unfold resolve_seq at h
    cases ho : open_target E d w with
    | error e => simp [ho] at h
    | ok x =>
      obtain ⟨fd, w1⟩ := x
      simp only [ho] at h
      by_cases hfd : fd < 0
      · exact ⟨[], d, ds, [], fd, w1, rfl, w, rfl, ho, hfd⟩
      · simp only [hfd, if_false] at h
        cases hst : stash_fd w1.fds fd with
        | error e => simp [hst] at h
        | ok y =>
          obtain ⟨fd', t'⟩ := y
          simp only [hst] at h
          cases hrec : resolve_seq E ds { w1 with fds := t' } with
          | error e => simp [hrec] at h
          | ok z =>
            obtain ⟨r2, ds2, w2⟩ := z
            simp only [hrec, Except.ok.injEq, Prod.mk.injEq] at h
            obtain ⟨hr2, _, _⟩ := h
            subst hr2
            obtain ⟨pre, k, post, pre', fd2, wk', hsplit, wk, hp, hk, hneg⟩ :=
              resolve_seq_failure E ds _ ds2 w2 hrec
            refine ⟨d :: pre, k, post, { d with file_fd := fd' } :: pre', fd2, wk',
              by rw [hsplit]; rfl, wk, ?_, hk, hneg⟩
            simp [resolve_seq, ho, hfd, hst, hp]

/-- Descriptors resolved before the first failing node are open when the
failure is returned. -/
theorem first_failure_keeps_open (E : Env) (ds : List t_node_data) (w : World)
    (hred : ∀ d ∈ ds, is_redirect d = true)
    (pre : List t_node_data) (k : t_node_data) (post pre' : List t_node_data)
    (fd : Int) (wk' : World) (h : FirstFailure E ds w pre k post pre' fd wk') :
    ∀ d ∈ pre', 10 ≤ d.file_fd ∧ ((report_failure k wk').fds.lookup d.file_fd).isSome = true := by
  obtain ⟨hsplit, wk, hpre, hopen, hfd⟩ := h
  have hredpre : ∀ d ∈ pre, is_redirect d = true :=
    fun d hd => hred d (by rw [hsplit]; simp [hd])
  have hredk : is_redirect k = true := hred k (by rw [hsplit]; simp)
  obtain ⟨_, _, hok⟩ := resolve_seq_spec E pre w 0 pre' wk hredpre hpre
  obtain ⟨hall, _⟩ := hok rfl
  have heff := open_target_effect E k wk hredk fd wk' hopen
  intro d hd
  obtain ⟨h10, _, hopen_d⟩ := hall d hd
  refine ⟨h10, ?_⟩
  rw [report_failure_fds]
  rcases heff with ⟨_, hsame⟩ | ⟨hnn, _⟩
  · rw [hsame]; exact hopen_d
  · omega

/-- The tree returned by `open_redir_file` is the input tree apart from the
`file_fd` members. -/
theorem open_redir_file_shape (E : Env) : ∀ (tree : t_node) (w : World) (r : Int)
    (tree' : t_node) (w' : World), open_redir_file E tree w = .ok (r, tree', w') →
    clear_file_fds tree' = clear_file_fds tree := by
  intro tree
  induction tree with
  | NULL =>
    intro w r tree' w' h
    simp only [open_redir_file, Except.ok.injEq, Prod.mk.injEq] at h
    rw [← h.2.1]
  | node d next command redirects ihn ihc ihr =>
    intro w r tree' w' h
    unfold open_redir_file at h
    by_cases hp : d.kind = ND_PIPELINE
    · simp only [hp, if_true] at h
      cases hc : open_redir_file E command w with
      | error e => simp [hc] at h
      | ok x =>
        obtain ⟨r1, c', w1⟩ := x
        have hcs := ihc w r1 c' w1 hc
        simp only [hc] at h
        by_cases hr1 : r1 < 0
        · simp only [hr1, if_true, Except.ok.injEq, Prod.mk.injEq] at h
          rw [← h.2.1]
          simp only [clear_file_fds, hcs]
        · simp only [hr1, if_false] at h
          cases hn : open_redir_file E next w1 with
          | error e => simp [hn] at h
          | ok y =>
            obtain ⟨r2, n', w2⟩ := y
            have hns := ihn w1 r2 n' w2 hn
            simp only [hn] at h
            by_cases hr2 : r2 < 0
            · simp only [hr2, if_true, Except.ok.injEq, Prod.mk.injEq] at h
              rw [← h.2.1]
              simp only [clear_file_fds, hcs, hns]
            · simp only [hr2, if_false, Except.ok.injEq, Prod.mk.injEq] at h
              rw [← h.2.1]
              simp only [clear_file_fds, hcs, hns]
    · simp only [hp, if_false] at h
      by_cases hs : d.kind = ND_SIMPLE_CMD
      · simp only [hs, if_true] at h
        cases hc : open_redir_file E redirects w with
        | error e => simp [hc] at h
        | ok x =>
          obtain ⟨r1, c', w1⟩ := x
          have hcs := ihr w r1 c' w1 hc
          simp only [hc, Except.ok.injEq, Prod.mk.injEq] at h
          rw [← h.2.1]
          simp only [clear_file_fds, hcs]
      · simp only [hs, if_false] at h
        cases ho : open_target E d w with
        | error e => simp [ho] at h
        | ok x =>
          obtain ⟨fd, w1⟩ := x
          simp only [ho] at h
          by_cases hfd : fd < 0
          · simp only [hfd, if_true, Except.ok.injEq, Prod.mk.injEq] at h
            rw [← h.2.1]
            simp only [clear_file_fds]
          · simp only [hfd, if_false] at h
            cases hst : stash_fd w1.fds fd with
            | error e => simp [hst] at h
            | ok y =>
              obtain ⟨fd', t'⟩ := y
              simp only [hst] at h
              cases hn : open_redir_file E next { w1 with fds := t' } with
              | error e => simp [hn] at h
              | ok z =>
                obtain ⟨r2, n', w2⟩ := z
                have hns := ihn _ r2 n' w2 hn
                simp only [hn, Except.ok.injEq, Prod.mk.injEq] at h
                rw [← h.2.1]
                simp only [clear_file_fds, hns]

/-! ## Runs on the concrete inputs -/

theorem demo_list_applied :
    (match do_redirect demo_list demo_table with
      | .ok (l', t') => some (stashes l', (List.range 14).map t'.get)
      | .error _ => none) =
    some ([12, 13], [some (.inherited 0), some (.opened 1), some (.inherited 0),
      none, none, none, none, none, none, none,
      some (.opened 0), some (.opened 1), some (.inherited 0), some (.opened 0)]) := by
  decide

theorem demo_tree_resolved :
    demo_resolved.1 = 0 ∧
      (redir_nodes demo_resolved.2.1).map (fun d => d.file_fd) = [10, 11, 12, 13] ∧
      demo_resolved.2.2.pipes 0 = "a\n" := by
  decide

theorem demo_tree_second_open_fails :
    (match open_redir_file (demo_env 1) demo_tree (demo_world demo_input) with
      | .ok (r, tree', w') =>
        some (r, (redir_nodes tree').map (fun d => d.file_fd), w'.nopens, w'.input, w'.diag)
      | .error _ => none) =
    some (-1, [10, -1, 0, 0], 2, demo_input, ["f2"]) := rfl

theorem demo_first_failure :
    FirstFailure (demo_env 1) (redir_nodes demo_tree) (demo_world demo_input)
      [⟨ND_REDIR_OUT, "f1", "", false, 1, 0, 0⟩] ⟨ND_REDIR_OUT, "f2", "", false, 1, 0, 0⟩
      [⟨ND_REDIR_HEREDOC, "", "EOF", false, 0, 0, 0⟩, ⟨ND_REDIR_OUT, "f3", "", false, 1, 0, 0⟩]
      [⟨ND_REDIR_OUT, "f1", "", false, 1, 10, 0⟩] (-1) demo_after_failure.2 :=
  ⟨by decide, demo_after_first.2.2, rfl, rfl, by decide⟩

/-- C1: for every redirection list that satisfies the apply preconditions
(all nodes are redirections, the target slots are open and below 10, the
resolved descriptors are open, pairwise distinct and at or above 10),
`do_redirect` followed by `reset_redirect` on the same list returns, and every
target slot named in the list refers to the open file it referred to before
`do_redirect`, also when several nodes name the same slot. -/
theorem do_redirect_reset_redirect_restores_targets (t : FdTable) (l : t_node)
    (h : ApplyPre t l) :
    ∃ l' t' t'', do_redirect l t = .ok (l', t') ∧ reset_redirect l' t' = .ok t'' ∧
      ∀ s ∈ targets l, (t.lookup s).isSome = true ∧ t''.lookup s = t.lookup s := by
  obtain ⟨l', t', t'', hdo, _, hreset, R⟩ := do_reset l t h
  refine ⟨l', t', t'', hdo, hreset, ?_⟩
  intro s hs
  obtain ⟨d, hd, rfl⟩ := List.mem_map.mp hs
  obtain ⟨hlt, hopen⟩ := h.2.1 d hd
  exact ⟨hopen, R.low_restored _ hlt⟩

/-- Witness of C1 on the list `> f1 > f2` (both on slot 1). -/
theorem do_redirect_reset_redirect_restores_targets_witness :
    ApplyPre demo_table demo_list ∧
    ∃ l' t' t'', do_redirect demo_list demo_table = .ok (l', t') ∧
      reset_redirect l' t' = .ok t'' ∧
      ∀ s ∈ targets demo_list,
        (demo_table.lookup s).isSome = true ∧ t''.lookup s = demo_table.lookup s :=
  ⟨by decide, do_redirect_reset_redirect_restores_targets demo_table demo_list (by decide)⟩

/-- C2: under the apply preconditions `do_redirect` returns, every target
slot named in the list then refers to the open file of the resolved descriptor
of the last node that names the slot, and the saved occupant recorded on the
first node that names the slot refers to the file the slot had before. -/
theorem do_redirect_last_wins_first_saves (t : FdTable) (l : t_node) (h : ApplyPre t l) :
    ∃ l' t', do_redirect l t = .ok (l', t') ∧
      ∀ s ∈ targets l,
        (∃ dl, last_for s l = some dl ∧ (t.lookup dl.file_fd).isSome = true ∧
          t'.lookup s = t.lookup dl.file_fd) ∧
        (∃ d1, first_for s l' = some d1 ∧ (t.lookup s).isSome = true ∧
          t'.lookup d1.stashed_target_fd = t.lookup s) := by
  obtain ⟨l', t', t'', hdo, D, _, _⟩ := do_reset l t h
  refine ⟨l', t', hdo, ?_⟩
  intro s hs
  obtain ⟨d, hd, hds⟩ := List.mem_map.mp hs
  obtain ⟨hlt, hopen⟩ := h.2.1 d hd
  rw [hds] at hlt hopen
  constructor
  · cases hl : last_for s l with
    | none =>
      exfalso
      unfold last_for at hl
      rw [List.getLast?_eq_none_iff] at hl
      have : d ∈ (chain l).filter (fun d => decide (d.target_fd = s)) := by
        rw [List.mem_filter]; exact ⟨hd, by simpa using hds⟩
      rw [hl] at this
      cases this
    | some dl =>
      refine ⟨dl, rfl, (h.2.2.1 dl (last_for_some hl).1).2, ?_⟩
      have := D.low s hlt
      rw [hl] at this
      exact this
  · cases hf : first_for s l' with
    | none =>
      exfalso
      unfold first_for at hf
      rw [List.find?_eq_none] at hf
      have hs' : s ∈ targets l' := by rw [D.targets_eq]; exact hs
      obtain ⟨d', hd', hds'⟩ := List.mem_map.mp hs'
      exact hf d' hd' (by simpa using hds')
    | some d1 => exact ⟨d1, rfl, hopen, D.first_saved s d1 hf⟩

/-- Witness of C2 on the list `> f1 > f2` (both on slot 1). -/
theorem do_redirect_last_wins_first_saves_witness :
    ApplyPre demo_table demo_list ∧
    ∃ l' t', do_redirect demo_list demo_table = .ok (l', t') ∧
      ∀ s ∈ targets demo_list,
        (∃ dl, last_for s demo_list = some dl ∧
          (demo_table.lookup dl.file_fd).isSome = true ∧
          t'.lookup s = demo_table.lookup dl.file_fd) ∧
        (∃ d1, first_for s l' = some d1 ∧ (demo_table.lookup s).isSome = true ∧
          t'.lookup d1.stashed_target_fd = demo_table.lookup s) :=
  ⟨by decide, do_redirect_last_wins_first_saves demo_table demo_list (by decide)⟩

/-- C3: on an open descriptor `fd`, `stash_fd` returns a descriptor `r` with
`r >= 10`, `r` free before the call and the lowest free slot at or above 10,
`r` now refers to the file `fd` referred to, slot `fd` is free, and every
other slot is unchanged.  (A free slot at or above 10 always exists in this
table, so it is not a hypothesis.) -/
theorem stash_fd_moves_to_lowest_free (t : FdTable) (fd : Int) (f : File)
    (h : t.lookup fd = some f) :
    ∃ r t', stash_fd t fd = .ok (r, t') ∧ 10 ≤ r ∧ t.lookup r = none ∧
      (∀ j : Int, 10 ≤ j → j < r → t.lookup j ≠ none) ∧
      t'.lookup r = some f ∧ t'.lookup fd = none ∧
      ∀ k, k ≠ fd → k ≠ r → t'.lookup k = t.lookup k := by
  obtain ⟨h10, hfree, hlow⟩ := t.lowest_free_spec 10
  have hfree' : t.lookup ((t.lowest_free 10 : Nat) : Int) = none := by
    rw [FdTable.lookup_natCast]; exact hfree
  have hne : ((t.lowest_free 10 : Nat) : Int) ≠ fd := by
    intro e; rw [e, h] at hfree'; cases hfree'
  refine ⟨_, _, stash_fd_open t fd f h, by omega, hfree', ?_, ?_, ?_, ?_⟩
  · intro j hj1 hj2
    have hj : j = ((j.toNat : Nat) : Int) := by omega
    rw [hj, FdTable.lookup_natCast]
    exact hlow j.toNat (by omega) (by omega)
  · rw [stash_fd_lookup t fd _ f h]; simp [hne]
  · rw [stash_fd_lookup t fd _ f h]; simp
  · intro k hk1 hk2
    rw [stash_fd_lookup t fd _ f h]; simp [hk1, hk2]

/-- Witness of C3: slot 1 of the demonstration table is stashed. -/
theorem stash_fd_moves_to_lowest_free_witness :
    demo_table.lookup 1 = some (.inherited 0) ∧
    ∃ r t', stash_fd demo_table 1 = .ok (r, t') ∧ 10 ≤ r ∧ demo_table.lookup r = none ∧
      (∀ j : Int, 10 ≤ j → j < r → demo_table.lookup j ≠ none) ∧
      t'.lookup r = some (.inherited 0) ∧ t'.lookup 1 = none ∧
      ∀ k, k ≠ 1 → k ≠ r → t'.lookup k = demo_table.lookup k :=
  ⟨by decide, stash_fd_moves_to_lowest_free demo_table 1 (.inherited 0) (by decide)⟩

/-- C7: on a descriptor that is not open (closed, negative or otherwise
invalid), `stash_fd` ends in `fatal_error`: it returns no descriptor. -/
theorem stash_fd_not_open_is_fatal (t : FdTable) (fd : Int) (h : t.lookup fd = none) :
    stash_fd t fd = fatal_error "fcntl" ∧ ∀ x, stash_fd t fd ≠ .ok x := by
  have := stash_fd_closed t fd h
  refine ⟨this, ?_⟩
  intro x hx
  rw [this] at hx
  cases hx

/-- Witness of C7: the negative descriptor `-1`. -/
theorem stash_fd_not_open_is_fatal_witness :
    demo_table.lookup (-1) = none ∧
    (stash_fd demo_table (-1) = fatal_error "fcntl" ∧
      ∀ x, stash_fd demo_table (-1) ≠ .ok x) :=
  ⟨by decide, stash_fd_not_open_is_fatal demo_table (-1) (by decide)⟩

/-- C10: under the apply preconditions, after `do_redirect` and
`reset_redirect` every resolved descriptor is closed, while the saved
occupants (one per node, pairwise distinct, at or above 10, free before the
apply) are still open; `reset_redirect` changes no slot other than the
resolved descriptors and the target slots. -/
theorem reset_redirect_leaves_stashes_open (t : FdTable) (l : t_node) (h : ApplyPre t l) :
    ∃ l' t' t'', do_redirect l t = .ok (l', t') ∧ reset_redirect l' t' = .ok t'' ∧
      (∀ fd ∈ file_fds l', t''.lookup fd = none) ∧
      (stashes l').length = (chain l).length ∧ (stashes l').Nodup ∧
      (∀ s ∈ stashes l', 10 ≤ s ∧ t.lookup s = none ∧ (t''.lookup s).isSome = true) ∧
      (∀ fd, fd ∉ file_fds l' → fd ∉ targets l' → t''.lookup fd = t'.lookup fd) := by
  obtain ⟨l', t', t'', hdo, D, hreset, R⟩ := do_reset l t h
  refine ⟨l', t', t'', hdo, hreset, ?_, ?_, D.stash_nodup, ?_, ?_⟩
  · rw [D.file_fds_eq]; exact R.closed
  · have := congrArg List.length D.targets_eq
    simpa [targets, stashes] using this
  · intro s hs
    obtain ⟨h1, h2, h3⟩ := D.stash_fresh s hs
    refine ⟨h1, h2, ?_⟩
    rw [R.frame s]
    · exact h3
    · intro hmem
      obtain ⟨d, hd, hds⟩ := List.mem_map.mp hmem
      have := (h.2.2.1 d hd).2
      rw [hds, h2] at this
      cases this
    · intro hmem
      obtain ⟨d, hd, hds⟩ := List.mem_map.mp hmem
      have := (h.2.1 d hd).1
      omega
  · rw [D.file_fds_eq, D.targets_eq]; exact R.frame

/-- Witness of C10 on the list `> f1 > f2` (both on slot 1). -/
theorem reset_redirect_leaves_stashes_open_witness :
    ApplyPre demo_table demo_list ∧
    ∃ l' t' t'', do_redirect demo_list demo_table = .ok (l', t') ∧
      reset_redirect l' t' = .ok t'' ∧
      (∀ fd ∈ file_fds l', t''.lookup fd = none) ∧
      (stashes l').length = (chain demo_list).length ∧ (stashes l').Nodup ∧
      (∀ s ∈ stashes l', 10 ≤ s ∧ demo_table.lookup s = none ∧
        (t''.lookup s).isSome = true) ∧
      (∀ fd, fd ∉ file_fds l' → fd ∉ targets l' → t''.lookup fd = t'.lookup fd) :=
  ⟨by decide, reset_redirect_leaves_stashes_open demo_table demo_list (by decide)⟩

/-- C5: when, after a sequence of accepted lines (all written, so their text
fits in the pipe), a read ends with the cancellation flag set, `read_heredoc`
returns `-1`, the line of that read is not written (the pipe holds the
accepted lines only), and both ends of the pipe are closed: every slot of the
table is as before the call. -/
theorem read_heredoc_cancelled_closes_pipe (E : Env) (w : World) (delimiter : String)
    (is_delim_unquoted : Bool) (lines : List String) (ev : ReadEvent)
    (rest : List ReadEvent)
    (hin : w.input = lines.map accepted ++ ev :: rest)
    (hne : ∀ l ∈ lines, l ≠ delimiter)
    (hfit : byte_count (heredoc_text E is_delim_unquoted lines) ≤ w.pipe_capacity)
    (hint : ev.interrupt = true) :
    ∃ w', read_heredoc E w delimiter is_delim_unquoted = .ok (-1, w') ∧
      (∀ k, w'.fds.lookup k = w.fds.lookup k) ∧
      w'.pipes w.npipes = heredoc_text E is_delim_unquoted lines ∧
      w'.input = rest := by
  obtain ⟨r, s, w1, _, _, _, hpipe, _, _, _, hC2, heq⟩ :=
    read_heredoc_run E w delimiter is_delim_unquoted lines (ev :: rest) hin hne hfit
  obtain ⟨w3, hloop, hflag, hpipes, hinput, hfds⟩ :=
    heredoc_loop_cancel E delimiter is_delim_unquoted (s : Int) ev rest w1 hint
  rw [hloop] at heq
  simp only [hflag, if_true, hfds] at heq
  refine ⟨_, heq, hC2, ?_, hinput⟩
  simp only; rw [hpipes, hpipe]

/-- Witness of C5: one accepted line, then a read that ends with the flag
set. -/
theorem read_heredoc_cancelled_closes_pipe_witness :
    ∃ w', read_heredoc (demo_env 0) (demo_world [accepted "a", ⟨some "b", true⟩])
        "EOF" false = .ok (-1, w') ∧
      (∀ k, w'.fds.lookup k = (demo_world [accepted "a", ⟨some "b", true⟩]).fds.lookup k) ∧
      w'.pipes (demo_world [accepted "a", ⟨some "b", true⟩]).npipes =
        heredoc_text (demo_env 0) false ["a"] ∧
      w'.input = [] :=
  read_heredoc_cancelled_closes_pipe (demo_env 0)
    (demo_world [accepted "a", ⟨some "b", true⟩]) "EOF" false ["a"] ⟨some "b", true⟩ []
    rfl (by decide) (by decide) rfl

/-- C6, counterexample: `readline` returns `NULL` before any delimiter line,
but the flag was set during that call; `read_heredoc` returns `-1`. -/
theorem read_heredoc_eof_with_flag_fails :
    status (read_heredoc (demo_env 0) (demo_world [accepted "a", ⟨none, true⟩]) "EOF" false)
      = some (-1) := by
  decide

/-- C6, amended: when `readline` returns `NULL` before any delimiter line was
seen (the lines before it were written, so their text fits in the pipe) and
the cancellation flag is not set, `read_heredoc` succeeds: it returns the read
end of the pipe, a non-negative slot, every other slot is as before the call
(the write end is closed), and the pipe holds the accepted lines. -/
theorem read_heredoc_eof_without_flag_succeeds (E : Env) (w : World) (delimiter : String)
    (is_delim_unquoted : Bool) (lines : List String) (tail : List ReadEvent)
    (hin : w.input = lines.map accepted ++ tail) (hne : ∀ l ∈ lines, l ≠ delimiter)
    (hfit : byte_count (heredoc_text E is_delim_unquoted lines) ≤ w.pipe_capacity)
    (htail : tail = [] ∨ ∃ rest, tail = ⟨none, false⟩ :: rest) :
    ∃ r w', read_heredoc E w delimiter is_delim_unquoted = .ok (r, w') ∧ 0 ≤ r ∧
      w'.fds.lookup r = some (.pipe_read w.npipes) ∧
      (∀ k, k ≠ r → w'.fds.lookup k = w.fds.lookup k) ∧
      w'.pipes w.npipes = heredoc_text E is_delim_unquoted lines := by
  have htail' : tail = [] ∨ ∃ ev rest, tail = ev :: rest ∧ ev.interrupt = false ∧
      (ev.line = none ∨ ev.line = some delimiter) := by
    rcases htail with h | ⟨rest, h⟩
    · exact Or.inl h
    · exact Or.inr ⟨⟨none, false⟩, rest, h, rfl, Or.inl rfl⟩
  obtain ⟨r, w', h1, h2, _, h4, h5, h6⟩ :=
    read_heredoc_success E w delimiter is_delim_unquoted lines tail hin hne hfit htail'
  exact ⟨r, w', h1, h2, h4, h5, h6⟩

/-- Witness of amended C6: delimiter `EOF`, lines `a`, `b`, then the end of
input. -/
theorem read_heredoc_eof_without_flag_succeeds_witness :
    heredoc_text (demo_env 0) false ["a", "b"] = "a\nb\n" ∧
    ∃ r w', read_heredoc (demo_env 0) (demo_world [accepted "a", accepted "b"])
        "EOF" false = .ok (r, w') ∧ 0 ≤ r ∧
      w'.fds.lookup r = some (.pipe_read (demo_world [accepted "a", accepted "b"]).npipes) ∧
      (∀ k, k ≠ r → w'.fds.lookup k = (demo_world [accepted "a", accepted "b"]).fds.lookup k) ∧
      w'.pipes (demo_world [accepted "a", accepted "b"]).npipes =
        heredoc_text (demo_env 0) false ["a", "b"] :=
  ⟨by decide, read_heredoc_eof_without_flag_succeeds (demo_env 0)
    (demo_world [accepted "a", accepted "b"]) "EOF" false ["a", "b"] [] rfl (by decide)
    (by decide) (Or.inl rfl)⟩

/-- C8: the result of `open_redir_file` on every command tree is that of
visiting the redirection nodes depth-first, left to right, head to tail.
When it returns, it returns `0` or `-1`, and `-1` exactly when some visited
node has an open (or heredoc capture) that fails.  With `k` the first failing
node, it returns `-1`: `file_fd` of `k` is the negative value, the nodes
after `k` are as they were and the state is the one left by the failed open of
`k` (plus its diagnostic), and the descriptors resolved for the nodes before
`k` are open. -/
theorem open_redir_file_fails_fast (E : Env) (tree : t_node) (w : World) :
    flat (open_redir_file E tree w) = resolve_seq E (redir_nodes tree) w ∧
    (∀ r tree' w', open_redir_file E tree w = .ok (r, tree', w') →
      (r = 0 ∨ r = -1) ∧
      (r = -1 ↔ ∃ pre k post pre' fd wk',
        FirstFailure E (redir_nodes tree) w pre k post pre' fd wk')) ∧
    ∀ pre k post pre' fd wk', FirstFailure E (redir_nodes tree) w pre k post pre' fd wk' →
      ∃ tree', open_redir_file E tree w = .ok (-1, tree', report_failure k wk') ∧ fd < 0 ∧
        redir_nodes tree' = pre' ++ { k with file_fd := fd } :: post ∧
        ∀ d ∈ pre', 10 ≤ d.file_fd ∧
          ((report_failure k wk').fds.lookup d.file_fd).isSome = true := by
  have href := open_redir_file_refines E tree w
  have hfail : ∀ pre k post pre' fd wk',
      FirstFailure E (redir_nodes tree) w pre k post pre' fd wk' →
      ∃ tree', open_redir_file E tree w = .ok (-1, tree', report_failure k wk') ∧ fd < 0 ∧
        redir_nodes tree' = pre' ++ { k with file_fd := fd } :: post ∧
        ∀ d ∈ pre', 10 ≤ d.file_fd ∧
          ((report_failure k wk').fds.lookup d.file_fd).isSome = true := by
    intro pre k post pre' fd wk' hff
    have hopen := first_failure_keeps_open E (redir_nodes tree) w (redir_nodes_redirect tree)
      pre k post pre' fd wk' hff
    obtain ⟨hsplit, wk, hpre, hk, hfd⟩ := hff
    have hseq := resolve_seq_first_failure E k post pre w pre' wk fd wk' hpre hk hfd
    rw [← hsplit, ← href] at hseq
    cases hrun : open_redir_file E tree w with
    | error e =>
      rw [hrun] at hseq
      cases hseq
    | ok x =>
      obtain ⟨r0, tree', w0⟩ := x
      rw [hrun] at hseq
      simp only [flat, Except.ok.injEq, Prod.mk.injEq] at hseq
      obtain ⟨h1, h2, h3⟩ := hseq
      subst h1 h3
      exact ⟨tree', rfl, hfd, h2, hopen⟩
  refine ⟨href, ?_, hfail⟩
  intro r tree' w' hrun
  have hseq : resolve_seq E (redir_nodes tree) w = .ok (r, redir_nodes tree', w') := by
    rw [← href, hrun]; rfl
  refine ⟨resolve_seq_status E _ w r _ w' hseq, ?_, ?_⟩
  · intro hr
    subst hr
    exact resolve_seq_failure E (redir_nodes tree) w (redir_nodes tree') w' hseq
  · rintro ⟨pre, k, post, pre', fd, wk', hff⟩
    obtain ⟨tree2, hrun2, _⟩ := hfail pre k post pre' fd wk' hff
    rw [hrun] at hrun2
    simp only [Except.ok.injEq, Prod.mk.injEq] at hrun2
    exact hrun2.1

/-- Witness of C8: on the demonstration tree with the second `open` refused,
the first failing node is `> f2`; the status is `-1`, the node has `-1`, the
two nodes after it are untouched and the descriptor of `> f1` is open. -/
theorem open_redir_file_fails_fast_witness :
    ∃ tree', open_redir_file (demo_env 1) demo_tree (demo_world demo_input)
        = .ok (-1, tree', report_failure ⟨ND_REDIR_OUT, "f2", "", false, 1, 0, 0⟩
            demo_after_failure.2) ∧
      redir_nodes tree' =
        [⟨ND_REDIR_OUT, "f1", "", false, 1, 10, 0⟩] ++
          ⟨ND_REDIR_OUT, "f2", "", false, 1, -1, 0⟩ ::
          [⟨ND_REDIR_HEREDOC, "", "EOF", false, 0, 0, 0⟩,
            ⟨ND_REDIR_OUT, "f3", "", false, 1, 0, 0⟩] ∧
      ((report_failure ⟨ND_REDIR_OUT, "f2", "", false, 1, 0, 0⟩
        demo_after_failure.2).fds.lookup 10).isSome = true := by
  obtain ⟨_, _, h3⟩ :=
    open_redir_file_fails_fast (demo_env 1) demo_tree (demo_world demo_input)
  obtain ⟨tree', hrun, _, hnodes, hopen⟩ := h3 _ _ _ _ _ _ demo_first_failure
  exact ⟨tree', hrun, hnodes, (hopen _ (List.mem_singleton.mpr rfl)).2⟩

/-- C9: when `open_redir_file` returns `0`, the tree it leaves is the input
tree apart from the `file_fd` members (so its redirection nodes are those of
the input tree, in the same order), and every redirection node has a resolved
descriptor that is non-negative, at or above 10 and open in the resulting
table; the resolved descriptors are pairwise distinct, and none of them equals
a slot below 10. -/
theorem open_redir_file_success_descriptors (E : Env) (tree : t_node) (w : World)
    (tree' : t_node) (w' : World) (h : open_redir_file E tree w = .ok (0, tree', w')) :
    clear_file_fds tree' = clear_file_fds tree ∧
    (redir_nodes tree').map (fun d => { d with file_fd := 0 }) =
      (redir_nodes tree).map (fun d => { d with file_fd := 0 }) ∧
    (∀ d ∈ redir_nodes tree',
      0 ≤ d.file_fd ∧ 10 ≤ d.file_fd ∧ (w'.fds.lookup d.file_fd).isSome = true) ∧
    ((redir_nodes tree').map (fun d => d.file_fd)).Nodup ∧
    (∀ d ∈ redir_nodes tree', ∀ s : Int, s < 10 → d.file_fd ≠ s) := by
  have hseq : resolve_seq E (redir_nodes tree) w = .ok (0, redir_nodes tree', w') := by
    rw [← open_redir_file_refines E tree w, h]; rfl
  obtain ⟨hshape, _, hok⟩ :=
    resolve_seq_spec E (redir_nodes tree) w 0 (redir_nodes tree') w'
      (redir_nodes_redirect tree) hseq
  obtain ⟨hall, hnd⟩ := hok rfl
  refine ⟨open_redir_file_shape E tree w 0 tree' w' h, hshape, ?_, hnd, ?_⟩
  · intro d hd
    obtain ⟨h10, _, hopen⟩ := hall d hd
    exact ⟨by omega, h10, hopen⟩
  · intro d hd s hs
    obtain ⟨h10, _, _⟩ := hall d hd
    omega

/-- Witness of C9: the demonstration tree `cmd > f1 > f2 | cmd << EOF > f3`
with every `open` granted; the four nodes get 10, 11, 12 and 13. -/
theorem open_redir_file_success_descriptors_witness :
    open_redir_file (demo_env 99) demo_tree (demo_world demo_input) =
      .ok (0, demo_tree_after, demo_resolved.2.2) ∧
    (clear_file_fds demo_tree_after = clear_file_fds demo_tree ∧
    (redir_nodes demo_tree_after).map (fun d => { d with file_fd := 0 }) =
      (redir_nodes demo_tree).map (fun d => { d with file_fd := 0 }) ∧
    (∀ d ∈ redir_nodes demo_tree_after,
      0 ≤ d.file_fd ∧ 10 ≤ d.file_fd ∧
        (demo_resolved.2.2.fds.lookup d.file_fd).isSome = true) ∧
    ((redir_nodes demo_tree_after).map (fun d => d.file_fd)).Nodup ∧
    (∀ d ∈ redir_nodes demo_tree_after, ∀ s : Int, s < 10 → d.file_fd ≠ s)) :=
  ⟨rfl, open_redir_file_success_descriptors (demo_env 99) demo_tree (demo_world demo_input)
    demo_tree_after demo_resolved.2.2 rfl⟩

end Minishell
